import Mathlib

/-!
Verification development for the dialog-session and booking engine of the
clientera telegram bot (src/bot/dialog_manager.py, src/bot/openai_client.py,
src/database/models.py).

Utterances and all other Python strings are shallowly embedded as List Char.
Python datetime values are embedded as a Julian-day number (jdn) together
with hour/minute/second fields; a day index d has weekday d % 7 with
Monday = 0, matching datetime.weekday().  Regular-expression searches from
the source are embedded as explicit leftmost scans with the same greedy,
backtracking behaviour the patterns have under re.search.
-/

set_option maxRecDepth 4000

/-- Numeric value of an ASCII digit character. -/
def dv (c : Char) : Nat := c.toNat - 48

/-- Lowercasing as used by str.lower in the source, restricted to the ASCII
and Russian Cyrillic letters that actually occur in the keyword tables. -/
def lowerRu (c : Char) : Char :=
  if 65 ≤ c.toNat ∧ c.toNat ≤ 90 then Char.ofNat (c.toNat + 32)
  else if 1040 ≤ c.toNat ∧ c.toNat ≤ 1071 then Char.ofNat (c.toNat + 32)
  else if c.toNat = 1025 then Char.ofNat 1105
  else c

/-- message_text.lower() on the embedded string. -/
def lowerStr (s : List Char) : List Char := s.map lowerRu

/-- Tests whether the second list begins with the first one. -/
def listStartsWith : List Char → List Char → Bool
  | [], _ => true
  | _ :: _, [] => false
  | p :: ps, c :: cs => p == c && listStartsWith ps cs

/-- Python substring containment (pat in s) on embedded strings. -/
def containsSub (pat : List Char) : List Char → Bool
  | [] => listStartsWith pat []
  | c :: rest => listStartsWith pat (c :: rest) || containsSub pat rest

/-- Containment of any keyword of a list, as in any(w in text for w in keys). -/
def containsAnyOf (keys : List (List Char)) (t : List Char) : Bool :=
  keys.any (fun w => containsSub w t)

theorem listStartsWith_iff (p s : List Char) :
    listStartsWith p s = true ↔ ∃ t, s = p ++ t := by
  induction p generalizing s with
  | nil => simp [listStartsWith]
  | cons x xs ih =>
    cases s with
    | nil => simp [listStartsWith]
    | cons c cs =>
      simp only [listStartsWith, Bool.and_eq_true, beq_iff_eq, ih, List.cons_append,
        List.cons.injEq]
      constructor
      · rintro ⟨rfl, t, rfl⟩; exact ⟨t, rfl, rfl⟩
      · rintro ⟨t, rfl, rfl⟩; exact ⟨rfl, t, rfl⟩

theorem containsSub_iff (p s : List Char) :
    containsSub p s = true ↔ ∃ u v, s = u ++ p ++ v := by
  induction s with
  | nil =>
    simp only [containsSub, listStartsWith_iff]
    constructor
    · rintro ⟨t, ht⟩
      exact ⟨[], t, by simpa using ht⟩
    · rintro ⟨u, v, huv⟩
      have hu : u = [] := by
        cases u with
        | nil => rfl
        | cons a as => simp at huv
      subst hu
      exact ⟨v, by simpa using huv⟩
  | cons c cs ih =>
    simp only [containsSub, Bool.or_eq_true, listStartsWith_iff, ih]
    constructor
    · rintro (⟨t, ht⟩ | ⟨u, v, huv⟩)
      · exact ⟨[], t, by simpa using ht⟩
      · exact ⟨c :: u, v, by simp [huv]⟩
    · rintro ⟨u, v, huv⟩
      cases u with
      | nil => exact Or.inl ⟨v, by simpa using huv⟩
      | cons a as =>
        simp only [List.cons_append, List.cons.injEq] at huv
        exact Or.inr ⟨as, v, huv.2⟩

/-! ## Fact extraction and profile merge (extract_and_update_client_facts) -/

/-- One list-valued profile merge step from extract_and_update_client_facts:
updated = list(set(current + new)).  The Python set has unspecified order;
we embed it as duplicate elimination of the concatenation, and state all
properties at the level of the underlying finite set. -/
def mergeFactList (current new : List (List Char)) : List (List Char) :=
  (current ++ new).dedup

/-- Key/value pairs of the custom_notes JSON object. -/
abbrev NoteKV := List Char × List Char

/-- Tests whether a dict has an entry for the key. -/
def hasKey : List NoteKV → List Char → Bool
  | [], _ => false
  | p :: rest, k => p.1 = k || hasKey rest k

/-- Setting one key of a Python dict: overwrite the entry if the key is
present, append it otherwise. -/
def setKey (l : List NoteKV) (k v : List Char) : List NoteKV :=
  if hasKey l k then
    l.map (fun p => if p.1 = k then (k, v) else p)
  else l ++ [(k, v)]

/-- current_notes.update(new_notes): each key of the new dict overwrites. -/
def notesUpdate (cur new : List NoteKV) : List NoteKV :=
  new.foldl (fun acc kv => setKey acc kv.1 kv.2) cur

/-- Dictionary lookup on an embedded dict. -/
def lookupKey : List NoteKV → List Char → Option (List Char)
  | [], _ => none
  | p :: rest, k => if p.1 = k then some p.2 else lookupKey rest k

/-- Customer profile fields touched by the fact merge (Client model). -/
structure ClientProfile where
  favorite_services : List (List Char)
  favorite_masters : List (List Char)
  preferred_time_slots : List (List Char)
  custom_notes : List NoteKV
deriving DecidableEq

/-- Structured facts returned by the fact extractor. -/
structure ClientFacts where
  favorite_services : List (List Char)
  favorite_masters : List (List Char)
  preferred_time_slots : List (List Char)
  custom_notes : List NoteKV
deriving DecidableEq

/-- The profile update of extract_and_update_client_facts: each list field is
merged when the extracted list is non-empty (Python truthiness guard), the
notes dict is merged key-by-key when non-empty. -/
def updateClientFacts (c : ClientProfile) (f : ClientFacts) : ClientProfile :=
  { favorite_services :=
      if f.favorite_services.isEmpty then c.favorite_services
      else mergeFactList c.favorite_services f.favorite_services
    favorite_masters :=
      if f.favorite_masters.isEmpty then c.favorite_masters
      else mergeFactList c.favorite_masters f.favorite_masters
    preferred_time_slots :=
      if f.preferred_time_slots.isEmpty then c.preferred_time_slots
      else mergeFactList c.preferred_time_slots f.preferred_time_slots
    custom_notes :=
      if f.custom_notes.isEmpty then c.custom_notes
      else notesUpdate c.custom_notes f.custom_notes }

theorem mergeFactList_toFinset (c n : List (List Char)) :
    (mergeFactList c n).toFinset = c.toFinset ∪ n.toFinset := by
  ext a
  simp [mergeFactList, List.mem_dedup]

theorem lookupKey_map_overwrite_self (k v : List Char) (l : List NoteKV) :
    lookupKey (l.map (fun p => if p.1 = k then (k, v) else p)) k =
      if hasKey l k then some v else none := by
  induction l with
  | nil => simp [lookupKey, hasKey]
  | cons q qs ih =>
    by_cases hq : q.1 = k
    · simp [lookupKey, hasKey, hq]
    · simp [lookupKey, hasKey, hq, ih]

theorem lookupKey_map_overwrite_other (k v k' : List Char) (hne : k' ≠ k) (l : List NoteKV) :
    lookupKey (l.map (fun p => if p.1 = k then (k, v) else p)) k' = lookupKey l k' := by
  induction l with
  | nil => simp
  | cons q qs ih =>
    have h3 : ¬(k = k') := fun h => hne h.symm
    by_cases hq : q.1 = k
    · have h2 : ¬(q.1 = k') := by rw [hq]; exact h3
      simp [lookupKey, hq, h2, ih, h3]
    · by_cases hq' : q.1 = k'
      · simp [lookupKey, hq, hq', hne]
      · simp [lookupKey, hq, hq', ih]

theorem lookupKey_eq_none_of_absent (l : List NoteKV) (k : List Char)
    (h : hasKey l k = false) : lookupKey l k = none := by
  induction l with
  | nil => rfl
  | cons q qs ih =>
    simp only [hasKey, Bool.or_eq_false_iff, decide_eq_false_iff_not] at h
    simp [lookupKey, h.1, ih h.2]

theorem lookupKey_append_of_left_none (l m : List NoteKV) (k : List Char)
    (h : lookupKey l k = none) : lookupKey (l ++ m) k = lookupKey m k := by
  induction l with
  | nil => simp
  | cons q qs ih =>
    by_cases hq : q.1 = k
    · simp [lookupKey, hq] at h
    · simp only [lookupKey, hq, if_false] at h
      simpa [lookupKey, hq] using ih h

theorem lookupKey_setKey_self (l : List NoteKV) (k v : List Char) :
    lookupKey (setKey l k v) k = some v := by
  unfold setKey
  cases hany : hasKey l k with
  | true => rw [if_pos rfl, lookupKey_map_overwrite_self, if_pos hany]
  | false =>
    simp only [hany, Bool.false_eq_true, if_false]
    rw [lookupKey_append_of_left_none _ _ _ (lookupKey_eq_none_of_absent _ _ hany)]
    simp [lookupKey]

theorem lookupKey_append_left (l m : List NoteKV) (k : List Char) (w : List Char)
    (h : lookupKey l k = some w) : lookupKey (l ++ m) k = some w := by
  induction l with
  | nil => cases h
  | cons q qs ih =>
    by_cases hq : q.1 = k
    · simp only [lookupKey, hq, if_true] at h
      simp [lookupKey, hq, h]
    · simp only [lookupKey, hq, if_false] at h
      simpa [lookupKey, hq] using ih h

theorem lookupKey_setKey_other (l : List NoteKV) (k v k' : List Char) (hne : k' ≠ k) :
    lookupKey (setKey l k v) k' = lookupKey l k' := by
  unfold setKey
  cases hany : hasKey l k with
  | true =>
    rw [if_pos rfl]
    exact lookupKey_map_overwrite_other _ _ _ hne _
  | false =>
    simp only [hany, Bool.false_eq_true, if_false]
    cases hl : lookupKey l k' with
    | some w => simp [lookupKey_append_left _ _ _ _ hl, hl]
    | none =>
      rw [lookupKey_append_of_left_none _ _ _ hl]
      have h3 : ¬(k = k') := fun h => hne h.symm
      simp [lookupKey, hl, h3]

theorem lookupKey_eq_none_of_not_mem_keys (l : List NoteKV) (k : List Char)
    (h : k ∉ l.map Prod.fst) : lookupKey l k = none := by
  induction l with
  | nil => rfl
  | cons q qs ih =>
    simp only [List.map_cons, List.mem_cons, not_or] at h
    have hq : ¬(q.1 = k) := fun he => h.1 he.symm
    simp [lookupKey, hq, ih h.2]

theorem lookupKey_notesUpdate (cur new : List NoteKV)
    (hnodup : (new.map Prod.fst).Nodup) (k : List Char) :
    lookupKey (notesUpdate cur new) k =
      Option.orElse (lookupKey new k) (fun _ => lookupKey cur k) := by
  induction new generalizing cur with
  | nil => simp [notesUpdate, lookupKey]
  | cons q rest ih =>
    simp only [List.map_cons, List.nodup_cons] at hnodup
    have hstep : notesUpdate cur (q :: rest) = notesUpdate (setKey cur q.1 q.2) rest := rfl
    rw [hstep, ih (setKey cur q.1 q.2) hnodup.2]
    by_cases hk : q.1 = k
    · subst hk
      rw [lookupKey_eq_none_of_not_mem_keys rest q.1 hnodup.1]
      simp [lookupKey, lookupKey_setKey_self]
    · rw [lookupKey_setKey_other _ _ _ _ (fun h => hk h.symm)]
      simp [lookupKey, hk]

/-- Claim C8: merging extracted facts unions each list-valued profile field
with the existing values as duplicate-free sets, the merge is idempotent at
the set level, and the notes map is merged key-by-key with new values
overwriting old ones and keys absent from the new facts left unchanged. -/
theorem c8_fact_merge_union_idempotent (c : ClientProfile) (f : ClientFacts)
    (hnodup : (f.custom_notes.map Prod.fst).Nodup) :
    ((updateClientFacts c f).favorite_services.toFinset =
        c.favorite_services.toFinset ∪ f.favorite_services.toFinset) ∧
    ((updateClientFacts c f).favorite_masters.toFinset =
        c.favorite_masters.toFinset ∪ f.favorite_masters.toFinset) ∧
    ((updateClientFacts c f).preferred_time_slots.toFinset =
        c.preferred_time_slots.toFinset ∪ f.preferred_time_slots.toFinset) ∧
    ((updateClientFacts (updateClientFacts c f) f).favorite_services.toFinset =
        (updateClientFacts c f).favorite_services.toFinset) ∧
    ((updateClientFacts (updateClientFacts c f) f).favorite_masters.toFinset =
        (updateClientFacts c f).favorite_masters.toFinset) ∧
    ((updateClientFacts (updateClientFacts c f) f).preferred_time_slots.toFinset =
        (updateClientFacts c f).preferred_time_slots.toFinset) ∧
    (∀ k, lookupKey (updateClientFacts c f).custom_notes k =
        Option.orElse (lookupKey f.custom_notes k) (fun _ => lookupKey c.custom_notes k)) ∧
    (∀ k, lookupKey (updateClientFacts (updateClientFacts c f) f).custom_notes k =
        lookupKey (updateClientFacts c f).custom_notes k) := by
  have hserv : (updateClientFacts c f).favorite_services.toFinset =
      c.favorite_services.toFinset ∪ f.favorite_services.toFinset := by
    unfold updateClientFacts
    cases he : f.favorite_services with
    | nil => simp
    | cons a as => simp [mergeFactList_toFinset]
  have hmast : (updateClientFacts c f).favorite_masters.toFinset =
      c.favorite_masters.toFinset ∪ f.favorite_masters.toFinset := by
    unfold updateClientFacts
    cases he : f.favorite_masters with
    | nil => simp
    | cons a as => simp [mergeFactList_toFinset]
  have hslots : (updateClientFacts c f).preferred_time_slots.toFinset =
      c.preferred_time_slots.toFinset ∪ f.preferred_time_slots.toFinset := by
    unfold updateClientFacts
    cases he : f.preferred_time_slots with
    | nil => simp
    | cons a as => simp [mergeFactList_toFinset]
  have hserv2 : (updateClientFacts (updateClientFacts c f) f).favorite_services.toFinset =
      (updateClientFacts c f).favorite_services.toFinset := by
    have h2 : (updateClientFacts (updateClientFacts c f) f).favorite_services.toFinset =
        (updateClientFacts c f).favorite_services.toFinset ∪ f.favorite_services.toFinset := by
      unfold updateClientFacts
      cases he : f.favorite_services with
      | nil => simp
      | cons a as => simp [mergeFactList_toFinset]
    rw [h2, hserv, Finset.union_assoc, Finset.union_self]
  have hmast2 : (updateClientFacts (updateClientFacts c f) f).favorite_masters.toFinset =
      (updateClientFacts c f).favorite_masters.toFinset := by
    have h2 : (updateClientFacts (updateClientFacts c f) f).favorite_masters.toFinset =
        (updateClientFacts c f).favorite_masters.toFinset ∪ f.favorite_masters.toFinset := by
      unfold updateClientFacts
      cases he : f.favorite_masters with
      | nil => simp
      | cons a as => simp [mergeFactList_toFinset]
    rw [h2, hmast, Finset.union_assoc, Finset.union_self]
  have hslots2 : (updateClientFacts (updateClientFacts c f) f).preferred_time_slots.toFinset =
      (updateClientFacts c f).preferred_time_slots.toFinset := by
    have h2 : (updateClientFacts (updateClientFacts c f) f).preferred_time_slots.toFinset =
        (updateClientFacts c f).preferred_time_slots.toFinset ∪ f.preferred_time_slots.toFinset := by
      unfold updateClientFacts
      cases he : f.preferred_time_slots with
      | nil => simp
      | cons a as => simp [mergeFactList_toFinset]
    rw [h2, hslots, Finset.union_assoc, Finset.union_self]
  have hnotes : ∀ (cur : List NoteKV), lookupKey (if f.custom_notes.isEmpty then cur
        else notesUpdate cur f.custom_notes) =
      fun k => Option.orElse (lookupKey f.custom_notes k) (fun _ => lookupKey cur k) := by
    intro cur
    funext k
    cases he : f.custom_notes with
    | nil => simp [lookupKey]
    | cons a as =>
      rw [he] at hnodup
      simp only [List.isEmpty_cons, Bool.false_eq_true, if_false]
      rw [lookupKey_notesUpdate cur (a :: as) hnodup k]
  have hnotesField : ∀ (c' : ClientProfile), (updateClientFacts c' f).custom_notes =
      if f.custom_notes.isEmpty then c'.custom_notes else notesUpdate c'.custom_notes f.custom_notes := by
    intro c'; rfl
  refine ⟨hserv, hmast, hslots, hserv2, hmast2, hslots2, ?_, ?_⟩
  · intro k
    rw [hnotesField c]
    exact congrFun (hnotes c.custom_notes) k
  · intro k
    rw [hnotesField (updateClientFacts c f), hnotesField c]
    have h1 := congrFun (hnotes c.custom_notes) k
    have h2 := congrFun (hnotes (if f.custom_notes.isEmpty then c.custom_notes
        else notesUpdate c.custom_notes f.custom_notes)) k
    rw [h2, h1]
    cases lookupKey f.custom_notes k <;> simp [Option.orElse]

/-- Concrete instance of the C8 theorem. -/
theorem c8_fact_merge_union_idempotent_witness :
    (updateClientFacts
        ⟨[['a']], [], [], [(['n'], ['x'])]⟩
        ⟨[['b'], ['a']], [], [], [(['n'], ['y']), (['m'], ['z'])]⟩).favorite_services.toFinset =
      ([[ 'a' ]] : List (List Char)).toFinset ∪ ([['b'], ['a']] : List (List Char)).toFinset ∧
    lookupKey (updateClientFacts
        ⟨[['a']], [], [], [(['n'], ['x'])]⟩
        ⟨[['b'], ['a']], [], [], [(['n'], ['y']), (['m'], ['z'])]⟩).custom_notes ['n'] =
      some ['y'] := by
  have h := c8_fact_merge_union_idempotent
    ⟨[['a']], [], [], [(['n'], ['x'])]⟩
    ⟨[['b'], ['a']], [], [], [(['n'], ['y']), (['m'], ['z'])]⟩ (by decide)
  refine ⟨h.1, ?_⟩
  rw [h.2.2.2.2.2.2.1 ['n']]
  decide

/-! ## Session tracker (get_or_create_session, close_session, save_message)

Timestamps are natural numbers in an arbitrary fixed unit; the configured
session timeout is a duration in the same unit.  The SQLAlchemy query
filter(client_id, is_active).first() is embedded as find? on the session
list, and order_by(created_at.desc()).first() on messages as the maximum
creation time. -/

/-- Row of the sessions table. -/
structure Sess where
  id : Nat
  client_id : Nat
  session_start : Nat
  session_end : Option Nat
  is_active : Bool
deriving DecidableEq

/-- Row of the messages table (fields relevant to session logic). -/
structure StoreMsg where
  id : Nat
  client_id : Nat
  session_id : Nat
  created_at : Nat
deriving DecidableEq

/-- The relational store as seen by the session tracker. -/
structure BotStore where
  sessions : List Sess
  messages : List StoreMsg
  nextSessionId : Nat
deriving DecidableEq

/-- Predicate of the active-session query for one customer. -/
def activeFor (cid : Nat) (s : Sess) : Bool := s.client_id = cid && s.is_active

/-- query(Session).filter(client_id == cid, is_active == True).first() -/
def findActiveSession (st : BotStore) (cid : Nat) : Option Sess :=
  st.sessions.find? (activeFor cid)

/-- Maximum of a list of timestamps, none when empty. -/
def maxTime : List Nat → Option Nat
  | [] => none
  | t :: r =>
    match maxTime r with
    | none => some t
    | some m => some (Nat.max t m)

/-- Creation time of the most recent message of a session:
query(Message).filter(session_id).order_by(created_at.desc()).first(). -/
def lastMessageTime (st : BotStore) (sid : Nat) : Option Nat :=
  maxTime ((st.messages.filter (fun m => m.session_id = sid)).map (fun m => m.created_at))

/-- Closing a session row: is_active = False, session_end = now. -/
def closeSessionRow (sid now : Nat) (l : List Sess) : List Sess :=
  l.map (fun s => if s.id = sid then { s with is_active := false, session_end := some now } else s)

/-- get_or_create_session.  The elapsed-time test now - t > timeout is the
Python comparison of timedeltas; with Nat subtraction a message in the
future gives elapsed 0, matching the negative-timedelta comparison being
false for a non-negative timeout. -/
def get_or_create_session (now timeout cid : Nat) (st : BotStore) : Sess × BotStore :=
  match findActiveSession st cid with
  | some a =>
    match lastMessageTime st a.id with
    | some t =>
      if now - t > timeout then
        let ns : Sess := ⟨st.nextSessionId, cid, now, none, true⟩
        (ns, ⟨closeSessionRow a.id now st.sessions ++ [ns], st.messages, st.nextSessionId + 1⟩)
      else (a, st)
    | none => (a, st)
  | none =>
    let ns : Sess := ⟨st.nextSessionId, cid, now, none, true⟩
    (ns, ⟨st.sessions ++ [ns], st.messages, st.nextSessionId + 1⟩)

/-- close_session: set the row with the given id inactive and stamp its end. -/
def close_session (sid now : Nat) (st : BotStore) : BotStore :=
  ⟨closeSessionRow sid now st.sessions, st.messages, st.nextSessionId⟩

/-- save_message: append one message row; sessions are untouched. -/
def save_message (mid cid sid t : Nat) (st : BotStore) : BotStore :=
  ⟨st.sessions, st.messages ++ [⟨mid, cid, sid, t⟩], st.nextSessionId⟩

/-- Number of active sessions of one customer. -/
def activeSessionCount (st : BotStore) (cid : Nat) : Nat :=
  (st.sessions.filter (activeFor cid)).length

/-- At most one active session per customer. -/
def UniqueActive (st : BotStore) : Prop := ∀ cid, activeSessionCount st cid ≤ 1

theorem activeFor_closeRow_false (cid sid now : Nat) (s : Sess) (hid : s.id = sid) :
    activeFor cid (if s.id = sid then { s with is_active := false, session_end := some now }
      else s) = false := by
  simp [hid, activeFor]

theorem eq_of_mem_of_mem_of_length_le_one {α} (l : List α) (x y : α)
    (h : l.length ≤ 1) (hx : x ∈ l) (hy : y ∈ l) : x = y := by
  cases l with
  | nil => cases hx
  | cons a t =>
    cases t with
    | nil =>
      rw [List.mem_singleton] at hx hy
      rw [hx, hy]
    | cons b r => simp at h

theorem filter_closeRow_eq_nil (cid now : Nat) (l : List Sess) (a : Sess)
    (hlen : (l.filter (activeFor cid)).length ≤ 1) (hmem : a ∈ l)
    (ha : activeFor cid a = true) :
    (closeSessionRow a.id now l).filter (activeFor cid) = [] := by
  rw [List.filter_eq_nil_iff]
  intro s' hs'
  rw [closeSessionRow, List.mem_map] at hs'
  obtain ⟨s, hs, rfl⟩ := hs'
  by_cases hid : s.id = a.id
  · rw [activeFor_closeRow_false cid a.id now s hid]
    simp
  · rw [if_neg hid]
    intro hact
    have hsf : s ∈ l.filter (activeFor cid) := List.mem_filter.mpr ⟨hs, hact⟩
    have haf : a ∈ l.filter (activeFor cid) := List.mem_filter.mpr ⟨hmem, ha⟩
    exact hid (congrArg Sess.id (eq_of_mem_of_mem_of_length_le_one _ _ _ hlen hsf haf))

theorem length_filter_closeRow_le (cid sid now : Nat) (l : List Sess) :
    ((closeSessionRow sid now l).filter (activeFor cid)).length ≤
      (l.filter (activeFor cid)).length := by
  induction l with
  | nil => simp [closeSessionRow]
  | cons s t ih =>
    rw [closeSessionRow, List.map_cons, ← closeSessionRow]
    by_cases hid : s.id = sid
    · rw [List.filter_cons, activeFor_closeRow_false cid sid now s hid]
      rw [List.filter_cons]
      cases hact : activeFor cid s <;> simp <;> omega
    · rw [if_neg hid, List.filter_cons, List.filter_cons]
      cases hact : activeFor cid s
      · simpa using ih
      · simpa using ih

theorem filter_append_single {α} (p : α → Bool) (l : List α) (x : α) :
    (l ++ [x]).filter p = l.filter p ++ if p x then [x] else [] := by
  rw [List.filter_append]
  cases hx : p x <;> simp [List.filter, hx]

/-- Claim C3: starting from a store with at most one active session per
customer, get_or_create_session, close_session and save_message all
preserve that invariant. -/
theorem c3_unique_active_session (st : BotStore) (h : UniqueActive st) :
    (∀ now timeout cid, UniqueActive (get_or_create_session now timeout cid st).2) ∧
    (∀ sid now, UniqueActive (close_session sid now st)) ∧
    (∀ mid cid sid t, UniqueActive (save_message mid cid sid t st)) := by
  refine ⟨?_, ?_, ?_⟩
  · intro now timeout cid cid'
    cases hfind : findActiveSession st cid with
    | some a =>
      have hmem : a ∈ st.sessions := List.mem_of_find?_eq_some hfind
      have ha : activeFor cid a = true := List.find?_some hfind
      cases hlast : lastMessageTime st a.id with
      | some t =>
        by_cases hexp : now - t > timeout
        · simp only [get_or_create_session, hfind, hlast, if_pos hexp]
          unfold activeSessionCount
          rw [filter_append_single]
          by_cases hc : cid' = cid
          · subst hc
            rw [filter_closeRow_eq_nil cid' now st.sessions a (h cid') hmem ha]
            cases hx : activeFor cid' ⟨st.nextSessionId, cid', now, none, true⟩ <;> simp
          · have hx : activeFor cid' (⟨st.nextSessionId, cid, now, none, true⟩ : Sess) = false := by
              unfold activeFor
              simp
              omega
            rw [hx]
            simp only [Bool.false_eq_true, if_false, List.append_nil]
            calc ((closeSessionRow a.id now st.sessions).filter (activeFor cid')).length
                ≤ (st.sessions.filter (activeFor cid')).length :=
                  length_filter_closeRow_le cid' a.id now st.sessions
              _ ≤ 1 := h cid'
        · simp only [get_or_create_session, hfind, hlast, if_neg hexp]
          exact h cid'
      | none =>
        simp only [get_or_create_session, hfind, hlast]
        exact h cid'
    | none =>
      simp only [get_or_create_session, hfind]
      unfold activeSessionCount
      rw [filter_append_single]
      by_cases hc : cid' = cid
      · subst hc
        have hnil : st.sessions.filter (activeFor cid') = [] := by
          rw [List.filter_eq_nil_iff]
          intro s hs
          have := List.find?_eq_none.mp hfind s hs
          simpa using this
        rw [hnil]
        cases hx : activeFor cid' ⟨st.nextSessionId, cid', now, none, true⟩ <;> simp
      · have hx : activeFor cid' (⟨st.nextSessionId, cid, now, none, true⟩ : Sess) = false := by
          unfold activeFor
          simp
          omega
        rw [hx]
        simp only [Bool.false_eq_true, if_false, List.append_nil]
        exact h cid'
  · intro sid now cid'
    show ((closeSessionRow sid now st.sessions).filter (activeFor cid')).length ≤ 1
    calc ((closeSessionRow sid now st.sessions).filter (activeFor cid')).length
        ≤ (st.sessions.filter (activeFor cid')).length :=
          length_filter_closeRow_le cid' sid now st.sessions
      _ ≤ 1 := h cid'
  · intro mid cid sid t cid'
    exact h cid'

/-- Concrete instance of the C3 theorem. -/
theorem c3_unique_active_session_witness :
    UniqueActive (get_or_create_session 10000 1000 1
      ⟨[⟨1, 1, 100, none, true⟩], [⟨1, 1, 1, 200⟩], 2⟩).2 :=
  (c3_unique_active_session ⟨[⟨1, 1, 100, none, true⟩], [⟨1, 1, 1, 200⟩], 2⟩
    (by intro cid; exact List.length_filter_le _ _)).1 10000 1000 1

/-- Claim C4: get_or_create_session closes the found active session exactly
when the elapsed time since its most recent message strictly exceeds the
timeout; a session with no messages is never closed; on closure a new
session is created whose start time is strictly later than the closed
session's start time (messages do not precede their session's start). -/
theorem c4_session_timeout_closure (now timeout cid : Nat) (st : BotStore) (a : Sess)
    (hfind : findActiveSession st cid = some a)
    (hfresh : ∀ s ∈ st.sessions, s.id < st.nextSessionId) :
    (∀ t, lastMessageTime st a.id = some t → now - t > timeout →
        (∀ s ∈ (get_or_create_session now timeout cid st).2.sessions, s.id = a.id →
            s.is_active = false ∧ s.session_end = some now) ∧
        (get_or_create_session now timeout cid st).1.session_start = now ∧
        (get_or_create_session now timeout cid st).1.id = st.nextSessionId ∧
        (a.session_start ≤ t →
            a.session_start < (get_or_create_session now timeout cid st).1.session_start)) ∧
    (lastMessageTime st a.id = none →
        get_or_create_session now timeout cid st = (a, st)) ∧
    (∀ t, lastMessageTime st a.id = some t → ¬(now - t > timeout) →
        get_or_create_session now timeout cid st = (a, st)) := by
  have hmem : a ∈ st.sessions := List.mem_of_find?_eq_some hfind
  refine ⟨?_, ?_, ?_⟩
  · intro t hlast hexp
    simp only [get_or_create_session, hfind, hlast, if_pos hexp]
    refine ⟨?_, by trivial, by trivial, ?_⟩
    · intro s hs hsid
      rw [List.mem_append] at hs
      rcases hs with hs | hs
      · rw [closeSessionRow, List.mem_map] at hs
        obtain ⟨s0, hs0, rfl⟩ := hs
        by_cases h0 : s0.id = a.id
        · simp [h0]
        · rw [if_neg h0] at hsid
          exact absurd hsid h0
      · rw [List.mem_singleton] at hs
        subst hs
        exact absurd hsid (Nat.ne_of_gt (hfresh a hmem))
    · intro hle
      omega
  · intro hlast
    simp only [get_or_create_session, hfind, hlast]
  · intro t hlast hexp
    simp only [get_or_create_session, hfind, hlast, if_neg hexp]

/-- Concrete instance of the C4 theorem: an expired session is closed and a
strictly later session is opened. -/
theorem c4_session_timeout_closure_witness :
    (get_or_create_session 10000 1000 1
        ⟨[⟨1, 1, 100, none, true⟩], [⟨1, 1, 1, 200⟩], 2⟩).1.session_start = 10000 ∧
    (100 : Nat) < (get_or_create_session 10000 1000 1
        ⟨[⟨1, 1, 100, none, true⟩], [⟨1, 1, 1, 200⟩], 2⟩).1.session_start := by
  have h := (c4_session_timeout_closure 10000 1000 1
      ⟨[⟨1, 1, 100, none, true⟩], [⟨1, 1, 1, 200⟩], 2⟩ ⟨1, 1, 100, none, true⟩
      (by decide) (by decide)).1 200 (by decide) (by decide)
  exact ⟨h.2.1, h.2.2.2 (by decide)⟩

/-! ## Fast-path booking-confirmation detector (_is_booking_confirmation)

The two regex searches of the detector are embedded as leftmost scans with
per-position matchers.  A match of either pattern begins with a digit and
backtracks only inside the one-or-two-digit groups, so the per-position
matchers below reproduce re.search exactly. -/

/-- Separator class of the time pattern (a colon or a dot). -/
def timeSep (c : Char) : Bool := c == ':' || c == '.'

/-- Separator class of the date pattern (a dot, slash or dash). -/
def dateSep (c : Char) : Bool := c == '.' || c == '/' || c == '-'

/-- Two-digit-hour alternative of the time pattern at one position. -/
def tmLongAt : List Char → Bool
  | a :: b :: c :: d :: e :: _ =>
    a.isDigit && b.isDigit && timeSep c && d.isDigit && e.isDigit
  | _ => false

/-- One-digit-hour alternative of the time pattern at one position. -/
def tmShortAt : List Char → Bool
  | a :: b :: c :: d :: _ => a.isDigit && timeSep b && c.isDigit && d.isDigit
  | _ => false

/-- Match of the time pattern at one position (greedy hour group first). -/
def timeDetectAt (s : List Char) : Bool := tmLongAt s || tmShortAt s

/-- Two-digit-day alternative of the date pattern at one position. -/
def dmLongAt : List Char → Bool
  | a :: b :: c :: d :: _ => a.isDigit && b.isDigit && dateSep c && d.isDigit
  | _ => false

/-- One-digit-day alternative of the date pattern at one position. -/
def dmShortAt : List Char → Bool
  | a :: b :: c :: _ => a.isDigit && dateSep b && c.isDigit
  | _ => false

/-- Match of the date pattern at one position; the optional year group of
the source pattern cannot affect whether a match exists. -/
def dateDetectAt (s : List Char) : Bool := dmLongAt s || dmShortAt s

/-- Existence of a match at any position: re.search as a Boolean. -/
def anyTail (f : List Char → Bool) : List Char → Bool
  | [] => f []
  | c :: rest => f (c :: rest) || anyTail f rest

/-- Weekday keyword stems of the detector and of the confirmation handler. -/
def weekdayKeys : List (List Char) :=
  ["понедельник", "вторник", "сред", "четверг", "пятниц", "суббот", "воскрес"].map
    String.toList

/-- Part-of-day keyword stems of the detector. -/
def partOfDayKeys : List (List Char) := ["утр", "дн", "веч", "ноч"].map String.toList

/-- _is_booking_confirmation: numeric date and time patterns both present, or
a weekday word and a part-of-day word both present in the lowercased text. -/
def is_booking_confirmation (s : List Char) : Bool :=
  (anyTail dateDetectAt s && anyTail timeDetectAt s) ||
  (containsAnyOf weekdayKeys (lowerStr s) && containsAnyOf partOfDayKeys (lowerStr s))

/-! Specification-level reading of the same patterns, used to state claim C6:
a pattern occurrence is an explicit decomposition of the utterance. -/

/-- A group of one or two digit characters. -/
def Digits1or2 (l : List Char) : Prop :=
  (∃ a, l = [a] ∧ a.isDigit = true) ∨
  (∃ a b, l = [a, b] ∧ a.isDigit = true ∧ b.isDigit = true)

/-- Occurrence of the hour-minute time pattern somewhere in the text. -/
def SpecTimeToken (s : List Char) : Prop :=
  ∃ u h sep d e v, s = u ++ h ++ (sep :: d :: e :: v) ∧ Digits1or2 h ∧
    timeSep sep = true ∧ d.isDigit = true ∧ e.isDigit = true

/-- Occurrence of the day-month numeric date pattern somewhere in the text. -/
def SpecDateToken (s : List Char) : Prop :=
  ∃ u d1 sep d2 v, s = u ++ d1 ++ (sep :: d2 :: v) ∧ Digits1or2 d1 ∧
    dateSep sep = true ∧ d2.isDigit = true

/-- Occurrence of a keyword in the lowercased utterance. -/
def ContainsWord (w s : List Char) : Prop := ∃ p q, lowerStr s = p ++ w ++ q

theorem anyTail_append_right (f : List Char → Bool) (u v : List Char)
    (h : anyTail f v = true) : anyTail f (u ++ v) = true := by
  induction u with
  | nil => simpa using h
  | cons c rest ih => simp [anyTail, ih]

theorem anyTail_iff_exists (f : List Char → Bool) (s : List Char) (hf : f [] = false) :
    anyTail f s = true ↔ ∃ u v, s = u ++ v ∧ f v = true := by
  constructor
  · intro h
    induction s with
    | nil => rw [anyTail, hf] at h; cases h
    | cons c rest ih =>
      rw [anyTail, Bool.or_eq_true] at h
      rcases h with h | h
      · exact ⟨[], c :: rest, rfl, h⟩
      · obtain ⟨u, v, rfl, hv⟩ := ih h
        exact ⟨c :: u, v, rfl, hv⟩
  · rintro ⟨u, v, rfl, hv⟩
    apply anyTail_append_right
    cases v with
    | nil => rw [hv] at hf; cases hf
    | cons x xs => simp [anyTail, hv]

theorem hasTimePattern_iff (s : List Char) :
    anyTail timeDetectAt s = true ↔ SpecTimeToken s := by
  rw [anyTail_iff_exists _ _ (by rfl)]
  constructor
  · rintro ⟨u, v, rfl, hv⟩
    rw [timeDetectAt, Bool.or_eq_true] at hv
    rcases hv with hv | hv
    · match v, hv with
      | a :: b :: c :: d :: e :: w, hv =>
        simp only [tmLongAt, Bool.and_eq_true] at hv
        obtain ⟨⟨⟨⟨ha, hb⟩, hc⟩, hd⟩, he⟩ := hv
        exact ⟨u, [a, b], c, d, e, w, by simp, Or.inr ⟨a, b, rfl, ha, hb⟩, hc, hd, he⟩
    · match v, hv with
      | a :: b :: c :: d :: w, hv =>
        simp only [tmShortAt, Bool.and_eq_true] at hv
        obtain ⟨⟨⟨ha, hb⟩, hc⟩, hd⟩ := hv
        exact ⟨u, [a], b, c, d, w, by simp, Or.inl ⟨a, rfl, ha⟩, hb, hc, hd⟩
  · rintro ⟨u, h, sep, d, e, v, rfl, hh, hsep, hd, he⟩
    rcases hh with ⟨a, rfl, ha⟩ | ⟨a, b, rfl, ha, hb⟩
    · exact ⟨u, a :: sep :: d :: e :: v, by simp,
        by simp [timeDetectAt, tmShortAt, ha, hsep, hd, he]⟩
    · exact ⟨u, a :: b :: sep :: d :: e :: v, by simp,
        by simp [timeDetectAt, tmLongAt, ha, hb, hsep, hd, he]⟩

theorem hasDatePattern_iff (s : List Char) :
    anyTail dateDetectAt s = true ↔ SpecDateToken s := by
  rw [anyTail_iff_exists _ _ (by rfl)]
  constructor
  · rintro ⟨u, v, rfl, hv⟩
    rw [dateDetectAt, Bool.or_eq_true] at hv
    rcases hv with hv | hv
    · match v, hv with
      | a :: b :: c :: d :: w, hv =>
        simp only [dmLongAt, Bool.and_eq_true] at hv
        obtain ⟨⟨⟨ha, hb⟩, hc⟩, hd⟩ := hv
        exact ⟨u, [a, b], c, d, w, by simp, Or.inr ⟨a, b, rfl, ha, hb⟩, hc, hd⟩
    · match v, hv with
      | a :: b :: c :: w, hv =>
        simp only [dmShortAt, Bool.and_eq_true] at hv
        obtain ⟨⟨ha, hb⟩, hc⟩ := hv
        exact ⟨u, [a], b, c, w, by simp, Or.inl ⟨a, rfl, ha⟩, hb, hc⟩
  · rintro ⟨u, d1, sep, d2, v, rfl, hh, hsep, hd2⟩
    rcases hh with ⟨a, rfl, ha⟩ | ⟨a, b, rfl, ha, hb⟩
    · exact ⟨u, a :: sep :: d2 :: v, by simp,
        by simp [dateDetectAt, dmShortAt, ha, hsep, hd2]⟩
    · exact ⟨u, a :: b :: sep :: d2 :: v, by simp,
        by simp [dateDetectAt, dmLongAt, ha, hb, hsep, hd2]⟩

theorem containsSub_iff_word (w s : List Char) :
    containsSub w (lowerStr s) = true ↔ ContainsWord w s := by
  rw [containsSub_iff]
  unfold ContainsWord
  constructor
  · rintro ⟨u, v, huv⟩; exact ⟨u, v, by simpa [List.append_assoc] using huv⟩
  · rintro ⟨u, v, huv⟩; exact ⟨u, v, by simpa [List.append_assoc] using huv⟩

/-- Claim C6: the fast-path confirmation detector fires exactly when the
utterance contains both a numeric day-month date pattern and an hour-minute
time pattern, or contains both a weekday keyword and a part-of-day keyword;
being a Lean function of the utterance it is deterministic and total. -/
theorem c6_confirmation_detector_iff (s : List Char) :
    is_booking_confirmation s = true ↔
      ((SpecDateToken s ∧ SpecTimeToken s) ∨
       ((∃ w ∈ weekdayKeys, ContainsWord w s) ∧ (∃ w ∈ partOfDayKeys, ContainsWord w s))) := by
  unfold is_booking_confirmation containsAnyOf
  simp only [Bool.or_eq_true, Bool.and_eq_true, hasDatePattern_iff, hasTimePattern_iff,
    List.any_eq_true, containsSub_iff_word]

/-- Concrete instance of the C6 theorem: an utterance with a weekday and a
part-of-day word fires the detector. -/
theorem c6_confirmation_detector_iff_witness :
    is_booking_confirmation ("приходите в пятницу вечером".toList) = true :=
  (c6_confirmation_detector_iff _).mpr
    (Or.inr ⟨⟨"пятниц".toList, by decide, "приходите в ".toList, "у вечером".toList,
      by decide⟩, ⟨"веч".toList, by decide, "приходите в пятницу ".toList, "ером".toList,
      by decide⟩⟩)

/-! ## Calendar arithmetic and Python datetime values

A datetime is a Julian day number plus hour, minute and second.  The JDN of
a proleptic Gregorian date is computed with the standard Nat-only formula;
JDN mod 7 is the Python weekday (Monday = 0).  Comparisons of datetimes are
made through the total second count, which agrees with the field-wise
comparison of Python datetimes for in-range fields. -/

/-- Gregorian leap-year rule. -/
def isLeapYear (y : Nat) : Bool := y % 4 == 0 && (!(y % 100 == 0) || y % 400 == 0)

/-- Length of a month. -/
def daysInMonth (y m : Nat) : Nat :=
  if m = 2 then (if isLeapYear y then 29 else 28)
  else if m = 4 || m = 6 || m = 9 || m = 11 then 30
  else 31

/-- Validity of a date as checked by the datetime constructor. -/
def pyValidDate (y m d : Nat) : Bool :=
  1 ≤ y && y ≤ 9999 && 1 ≤ m && m ≤ 12 && 1 ≤ d && d ≤ daysInMonth y m

/-- Julian day number of a proleptic Gregorian date (valid for y ≥ 1). -/
def rataDie (y m d : Nat) : Nat :=
  let a := (14 - m) / 12
  let y2 := y + 4800 - a
  let m2 := m + 12 * a - 3
  d + (153 * m2 + 2) / 5 + 365 * y2 + y2 / 4 - y2 / 100 + y2 / 400 - 32045

/-- A Python datetime value. -/
structure PyDateTime where
  jdn : Nat
  hour : Nat
  minute : Nat
  second : Nat
deriving DecidableEq

/-- Total seconds of a datetime, the order used for datetime comparisons. -/
def toSec (t : PyDateTime) : Nat :=
  t.jdn * 86400 + t.hour * 3600 + t.minute * 60 + t.second

/-- The current instant, as the fields datetime.now() exposes. -/
structure PyNow where
  year : Nat
  month : Nat
  day : Nat
  hour : Nat
  minute : Nat
  second : Nat
deriving DecidableEq

/-- Day number of the current instant. -/
def PyNow.jdn (n : PyNow) : Nat := rataDie n.year n.month n.day

/-- datetime.now() as a datetime value. -/
def nowDT (n : PyNow) : PyDateTime := ⟨n.jdn, n.hour, n.minute, n.second⟩

/-! ## strptime readers

Each format directive of Python strptime compiles to a regular expression
alternation; the readers below implement those alternations in order, and
strptime fails when unconverted data remains. -/

/-- Directive %Y: exactly four digits. -/
def read4Y : List Char → Option (Nat × List Char)
  | a :: b :: c :: d :: r =>
    if a.isDigit && b.isDigit && c.isDigit && d.isDigit then
      some (dv a * 1000 + dv b * 100 + dv c * 10 + dv d, r)
    else none
  | _ => none

/-- Directive %m, the alternation 1[0-2] then 0[1-9] then [1-9]. -/
def readMonthTok : List Char → Option (Nat × List Char)
  | a :: b :: r =>
    if a == '1' && b.isDigit && dv b ≤ 2 then some (10 + dv b, r)
    else if a == '0' && b.isDigit && 1 ≤ dv b then some (dv b, r)
    else if a.isDigit && 1 ≤ dv a then some (dv a, b :: r)
    else none
  | [a] => if a.isDigit && 1 ≤ dv a then some (dv a, []) else none
  | [] => none

/-- Directive %d, the alternation 3[01] then [12] digit then 0[1-9] then [1-9]. -/
def readDayTok : List Char → Option (Nat × List Char)
  | a :: b :: r =>
    if a == '3' && b.isDigit && dv b ≤ 1 then some (30 + dv b, r)
    else if (a == '1' || a == '2') && b.isDigit then some (10 * dv a + dv b, r)
    else if a == '0' && b.isDigit && 1 ≤ dv b then some (dv b, r)
    else if a.isDigit && 1 ≤ dv a then some (dv a, b :: r)
    else none
  | [a] => if a.isDigit && 1 ≤ dv a then some (dv a, []) else none
  | [] => none

/-- Directive %H, the alternation 2[0-3] then [0-1] digit then a digit. -/
def readHourTok : List Char → Option (Nat × List Char)
  | a :: b :: r =>
    if a == '2' && b.isDigit && dv b ≤ 3 then some (20 + dv b, r)
    else if (a == '0' || a == '1') && b.isDigit then some (10 * dv a + dv b, r)
    else if a.isDigit then some (dv a, b :: r)
    else none
  | [a] => if a.isDigit then some (dv a, []) else none
  | [] => none

/-- Directive %M, the alternation [0-5] digit then a digit. -/
def readMinuteTok : List Char → Option (Nat × List Char)
  | a :: b :: r =>
    if a.isDigit && dv a ≤ 5 && b.isDigit then some (10 * dv a + dv b, r)
    else if a.isDigit then some (dv a, b :: r)
    else none
  | [a] => if a.isDigit then some (dv a, []) else none
  | [] => none

/-- A literal character of the format string. -/
def expectChar (c : Char) : List Char → Option (List Char)
  | x :: r => if x == c then some r else none
  | [] => none

/-- strptime with format %Y-%m-%d %H:%M, including the validity check made
by the datetime constructor; returns the field values. -/
def parse_strptime_ymd_hm (s : List Char) : Option (Nat × Nat × Nat × Nat × Nat) := do
  let (y, r1) ← read4Y s
  let r2 ← expectChar '-' r1
  let (m, r3) ← readMonthTok r2
  let r4 ← expectChar '-' r3
  let (d, r5) ← readDayTok r4
  let r6 ← expectChar ' ' r5
  let (h, r7) ← readHourTok r6
  let r8 ← expectChar ':' r7
  let (mi, r9) ← readMinuteTok r8
  if r9.isEmpty && pyValidDate y m d then some (y, m, d, h, mi) else none

/-- strptime with a day-month-year format using the given separator. -/
def parse_dmy (sep : Char) (s : List Char) : Option (Nat × Nat × Nat) := do
  let (d, r1) ← readDayTok s
  let r2 ← expectChar sep r1
  let (m, r3) ← readMonthTok r2
  let r4 ← expectChar sep r3
  let (y, r5) ← read4Y r4
  if r5.isEmpty && pyValidDate y m d then some (y, m, d) else none

/-- strptime with format %Y-%m-%d. -/
def parse_ymd (s : List Char) : Option (Nat × Nat × Nat) := do
  let (y, r1) ← read4Y s
  let r2 ← expectChar '-' r1
  let (m, r3) ← readMonthTok r2
  let r4 ← expectChar '-' r3
  let (d, r5) ← readDayTok r4
  if r5.isEmpty && pyValidDate y m d then some (y, m, d) else none

/-- The format cascade of _generate_available_slots for the preferred date. -/
def parse_slot_start_date (s : List Char) : Option (Nat × Nat × Nat) :=
  (parse_dmy '.' s).orElse fun _ =>
    (parse_ymd s).orElse fun _ =>
      (parse_dmy '/' s).orElse fun _ => parse_dmy '-' s

/-! ## Candidate slot generation (_generate_available_slots) -/

/-- A candidate slot: a day index plus an on-the-half-hour time. -/
structure BotSlot where
  day : Nat
  hour : Nat
  minute : Nat
deriving DecidableEq

/-- Character of one decimal digit. -/
def digitChar (n : Nat) : Char := Char.ofNat (48 + n % 10)

/-- Zero-padded two-digit rendering, as the 02d format. -/
def twoDigitChars (n : Nat) : List Char := [digitChar (n / 10), digitChar n]

/-- The formatted time string hour:minute of a slot. -/
def fmtHM (h m : Nat) : List Char := twoDigitChars h ++ ':' :: twoDigitChars m

/-- Python truthiness of an optional string. -/
def truthy (o : Option (List Char)) : Bool :=
  match o with
  | some s => !s.isEmpty
  | none => false

/-- The promotion test: preferred_time and preferred_time in time_str. -/
def slotMatches (pt : Option (List Char)) (s : BotSlot) : Bool :=
  match pt with
  | none => false
  | some p => !p.isEmpty && containsSub p (fmtHM s.hour s.minute)

/-- The forty half-hour slots of one business day, 09:00 to 18:30, in
generation order: hour-major, minute 0 before minute 30. -/
def daySlots (d : Nat) : List BotSlot :=
  (List.range 20).map (fun k => ⟨d, 9 + k / 2, if k % 2 = 0 then 0 else 30⟩)

/-- The business days among the seven days from the start date; weekday is
the day index mod 7 with Monday = 0, so 5 and 6 are the weekend. -/
def genDays (sd : Nat) : List Nat :=
  ((List.range 7).map (fun i => sd + i)).filter (fun d => d % 7 < 5)

/-- All generated slots in generation order. -/
def allSlots (sd : Nat) : List BotSlot :=
  (genDays sd).foldr (fun d acc => daySlots d ++ acc) []

/-- One iteration of the generation loop: a slot whose formatted time
contains the preferred time is inserted at the front, the others are
appended at the back. -/
def addSlot (pt : Option (List Char)) (acc : List BotSlot) (s : BotSlot) : List BotSlot :=
  if slotMatches pt s then s :: acc else acc ++ [s]

/-- The start day: the parsed preferred date, or today when the string is
absent or matches none of the four accepted formats. -/
def startDayFor (njdn : Nat) (pd : Option (List Char)) : Nat :=
  match pd with
  | none => njdn
  | some s =>
    match parse_slot_start_date s with
    | some (y, m, d) => rataDie y m d
    | none => njdn

/-- _generate_available_slots: fold the generation loop over all slots and
return the first ten. -/
def generate_available_slots (njdn : Nat) (pd pt : Option (List Char)) : List BotSlot :=
  ((allSlots (startDayFor njdn pd)).foldl (addSlot pt) []).take 10

theorem foldl_addSlot (pt : Option (List Char)) (l : List BotSlot) :
    ∀ acc, l.foldl (addSlot pt) acc =
      (l.filter (fun s => slotMatches pt s)).reverse ++ acc ++
        l.filter (fun s => !(slotMatches pt s)) := by
  induction l with
  | nil => intro acc; simp
  | cons s t ih =>
    intro acc
    rw [List.foldl_cons]
    cases hm : slotMatches pt s with
    | true =>
      rw [addSlot, if_pos hm, ih (s :: acc)]
      simp [List.filter_cons, hm, List.append_assoc]
    | false =>
      rw [addSlot, if_neg (by rw [hm]; exact Bool.false_ne_true), ih (acc ++ [s])]
      simp [List.filter_cons, hm, List.append_assoc]

theorem mem_daySlots (d : Nat) (s : BotSlot) (h : s ∈ daySlots d) :
    s.day = d ∧ 9 ≤ s.hour ∧ s.hour ≤ 18 ∧ (s.minute = 0 ∨ s.minute = 30) := by
  rw [daySlots, List.mem_map] at h
  obtain ⟨k, hk, rfl⟩ := h
  rw [List.mem_range] at hk
  refine ⟨rfl, by show 9 ≤ 9 + k / 2; omega, by show 9 + k / 2 ≤ 18; omega, ?_⟩
  by_cases h2 : k % 2 = 0 <;> simp [h2]

theorem mem_foldr_daySlots (l : List Nat) (s : BotSlot)
    (h : s ∈ l.foldr (fun d acc => daySlots d ++ acc) []) : ∃ d ∈ l, s ∈ daySlots d := by
  induction l with
  | nil => cases h
  | cons d t ih =>
    rw [List.foldr_cons, List.mem_append] at h
    rcases h with h | h
    · exact ⟨d, List.mem_cons_self d t, h⟩
    · obtain ⟨d', hd', hs⟩ := ih h
      exact ⟨d', List.mem_cons_of_mem d hd', hs⟩

theorem mem_allSlots (sd : Nat) (s : BotSlot) (h : s ∈ allSlots sd) :
    s.day % 7 < 5 ∧ 9 ≤ s.hour ∧ s.hour ≤ 18 ∧ (s.minute = 0 ∨ s.minute = 30) := by
  rw [allSlots] at h
  obtain ⟨d, hd, hs⟩ := mem_foldr_daySlots _ _ h
  have hwd : d % 7 < 5 := by
    rw [genDays, List.mem_filter] at hd
    simpa using hd.2
  obtain ⟨hday, hrest⟩ := mem_daySlots d s hs
  exact ⟨hday ▸ hwd, hrest⟩

/-- Claim C5: for every preferred date and preferred time, the generated
candidate list has no Saturday or Sunday slot, at most ten slots, every
slot on the half-hour grid between 09:00 and 18:30, and it splits into a
front block of slots whose formatted time contains the preferred time
followed by a back block of non-matching slots that keeps the generation
order (a sublist of the non-matching slots in generation order). -/
theorem c5_slot_generation (njdn : Nat) (pd pt : Option (List Char)) :
    (∀ s ∈ generate_available_slots njdn pd pt, s.day % 7 < 5) ∧
    (generate_available_slots njdn pd pt).length ≤ 10 ∧
    (∀ s ∈ generate_available_slots njdn pd pt,
        9 ≤ s.hour ∧ s.hour ≤ 18 ∧ (s.minute = 0 ∨ s.minute = 30)) ∧
    (∃ front back, generate_available_slots njdn pd pt = front ++ back ∧
        (∀ s ∈ front, slotMatches pt s = true) ∧
        (∀ s ∈ back, slotMatches pt s = false) ∧
        back.Sublist ((allSlots (startDayFor njdn pd)).filter
          (fun s => !(slotMatches pt s)))) := by
  have hbase : generate_available_slots njdn pd pt =
      ((allSlots (startDayFor njdn pd)).filter (fun s => slotMatches pt s)).reverse.take 10 ++
        ((allSlots (startDayFor njdn pd)).filter (fun s => !(slotMatches pt s))).take
          (10 - ((allSlots (startDayFor njdn pd)).filter
            (fun s => slotMatches pt s)).reverse.length) := by
    rw [generate_available_slots, foldl_addSlot, List.append_nil,
      List.take_append_eq_append_take]
  have hsub : ∀ s ∈ generate_available_slots njdn pd pt, s ∈ allSlots (startDayFor njdn pd) := by
    intro s hs
    rw [hbase, List.mem_append] at hs
    rcases hs with hs | hs
    · have := List.take_subset _ _ hs
      rw [List.mem_reverse] at this
      exact (List.mem_filter.mp this).1
    · exact (List.mem_filter.mp (List.take_subset _ _ hs)).1
  refine ⟨?_, ?_, ?_, ?_⟩
  · intro s hs
    exact (mem_allSlots _ _ (hsub s hs)).1
  · rw [generate_available_slots]
    exact List.length_take_le 10 _
  · intro s hs
    exact (mem_allSlots _ _ (hsub s hs)).2
  · refine ⟨_, _, hbase, ?_, ?_, ?_⟩
    · intro s hs
      have := List.take_subset _ _ hs
      rw [List.mem_reverse] at this
      exact (List.mem_filter.mp this).2
    · intro s hs
      have := List.take_subset _ _ hs
      have hm := (List.mem_filter.mp this).2
      simpa using hm
    · exact List.take_sublist _ _

/-- Concrete instance of the C5 theorem. -/
theorem c5_slot_generation_witness :
    (generate_available_slots 0 none (some ("10:00".toList))).length ≤ 10 :=
  (c5_slot_generation 0 none (some ("10:00".toList))).2.1

/-! ## Date and time extraction of the confirmation handler

Each capture pattern of _handle_booking_confirmation is embedded as a
per-position matcher plus a leftmost scan.  Every pattern starts with a
digit and its one-or-two-digit groups can be committed greedily: when the
two-digit branch of a group matches up to and including the following
separator, the one-digit branch cannot succeed at the same position, since
the separator class never contains a digit. -/

/-- Leftmost scan returning the first per-position match: re.search with
captures. -/
def firstTail {α : Type} (f : List Char → Option α) : List Char → Option α
  | [] => f []
  | c :: rest => (f (c :: rest)).orElse fun _ => firstTail f rest

/-- Group (digits 1-2) followed by a literal separator; greedy in the group.
Returns the captured value and the remainder after the separator. -/
def numSepAt (sep : Char) : List Char → Option (Nat × List Char)
  | a :: b :: c :: rest =>
    if a.isDigit && b.isDigit && c == sep then some (10 * dv a + dv b, rest)
    else if a.isDigit && b == sep then some (dv a, c :: rest)
    else none
  | [a, b] => if a.isDigit && b == sep then some (dv a, []) else none
  | _ => none

/-- Trailing group (digits 1-2), greedy. -/
def d2or1at : List Char → Option Nat
  | a :: b :: _ =>
    if a.isDigit && b.isDigit then some (10 * dv a + dv b)
    else if a.isDigit then some (dv a) else none
  | [a] => if a.isDigit then some (dv a) else none
  | [] => none

/-- Group of exactly four digits. -/
def d4at : List Char → Option Nat
  | a :: b :: c :: d :: _ =>
    if a.isDigit && b.isDigit && c.isDigit && d.isDigit then
      some (dv a * 1000 + dv b * 100 + dv c * 10 + dv d)
    else none
  | _ => none

/-- Day-month-year capture pattern with the given separator at one position. -/
def matchDMY (sep : Char) (s : List Char) : Option (Nat × Nat × Nat) :=
  match numSepAt sep s with
  | none => none
  | some (d, r1) =>
    match numSepAt sep r1 with
    | none => none
    | some (m, r2) =>
      match d4at r2 with
      | none => none
      | some y => some (d, m, y)

/-- Day-month capture pattern with a dot at one position. -/
def matchDM (sep : Char) (s : List Char) : Option (Nat × Nat) :=
  match numSepAt sep s with
  | none => none
  | some (d, r1) =>
    match d2or1at r1 with
    | none => none
    | some m => some (d, m)

/-- Hour-minute capture pattern: digits 1-2, a literal separator, exactly
two digits; greedy in the hour group. -/
def matchHM (sep : Char) : List Char → Option (Nat × Nat)
  | a :: b :: c :: d :: e :: _ =>
    if a.isDigit && b.isDigit && c == sep && d.isDigit && e.isDigit then
      some (10 * dv a + dv b, 10 * dv d + dv e)
    else if a.isDigit && b == sep && c.isDigit && d.isDigit then
      some (dv a, 10 * dv c + dv d)
    else none
  | [a, b, c, d] =>
    if a.isDigit && b == sep && c.isDigit && d.isDigit then
      some (dv a, 10 * dv c + dv d)
    else none
  | _ => none

/-- The date-extraction cascade of _handle_booking_confirmation: the four
patterns in order; a match whose value fails the datetime constructor makes the
loop continue with the next pattern.  Returns (year, month, day).  The
two-group dotted pattern uses the current year. -/
def extractDate (nowYear : Nat) (msg : List Char) : Option (Nat × Nat × Nat) :=
  let step4 :=
    match firstTail (matchDMY '-') msg with
    | some (d, m, y) => if pyValidDate y m d then some (y, m, d) else none
    | none => none
  let step3 :=
    match firstTail (matchDMY '/') msg with
    | some (d, m, y) => if pyValidDate y m d then some (y, m, d) else step4
    | none => step4
  let step2 :=
    match firstTail (matchDM '.') msg with
    | some (d, m) => if pyValidDate nowYear m d then some (nowYear, m, d) else step3
    | none => step3
  match firstTail (matchDMY '.') msg with
  | some (d, m, y) => if pyValidDate y m d then some (y, m, d) else step2
  | none => step2

/-- The time-extraction cascade: colon pattern, then dot pattern; a match
rejected by datetime.replace (hour above 23 or minute above 59) makes the
loop continue with the next pattern. -/
def extractTime (msg : List Char) : Option (Nat × Nat) :=
  let step2 :=
    match firstTail (matchHM '.') msg with
    | some (h, mi) => if h ≤ 23 && mi ≤ 59 then some (h, mi) else none
    | none => none
  match firstTail (matchHM ':') msg with
  | some (h, mi) => if h ≤ 23 && mi ≤ 59 then some (h, mi) else step2
  | none => step2

/-- The weekday fallback table of the confirmation handler, probed in
insertion order against the lowercased text; first hit wins. -/
def weekdayFromMsg (msg : List Char) : Option Nat :=
  let l := lowerStr msg
  if containsSub ("понедельник".toList) l then some 0
  else if containsSub ("вторник".toList) l then some 1
  else if containsSub ("сред".toList) l then some 2
  else if containsSub ("четверг".toList) l then some 3
  else if containsSub ("пятниц".toList) l then some 4
  else if containsSub ("суббот".toList) l then some 5
  else if containsSub ("воскрес".toList) l then some 6
  else none

/-- days_ahead = (wval - today.weekday()) % 7, rolled to 7 when zero; the
Nat form agrees with the Python signed modulo for weekday values below 7. -/
def daysAhead (todayW wval : Nat) : Nat :=
  let d := (wval + 7 - todayW) % 7
  if d = 0 then 7 else d

/-- Morning keyword list of the part-of-day fallback. -/
def morningWords : List (List Char) := ["утр", "утром", "утро"].map String.toList

/-- Afternoon keyword list of the part-of-day fallback. -/
def afternoonWords : List (List Char) := ["дн", "днем", "днём", "день"].map String.toList

/-- Evening keyword list of the part-of-day fallback. -/
def eveningWords : List (List Char) := ["веч", "вечер", "вечером"].map String.toList

/-- The part-of-day fallback: morning 10:00, afternoon 13:00, evening 18:00,
probed in that order on the lowercased text. -/
def partOfDayTime (msg : List Char) : Option (Nat × Nat) :=
  let l := lowerStr msg
  if containsAnyOf morningWords l then some (10, 0)
  else if containsAnyOf afternoonWords l then some (13, 0)
  else if containsAnyOf eveningWords l then some (18, 0)
  else none

/-- An appointments-table row as created by the dialog manager. -/
structure Appointment where
  service_name : List Char
  master_name : List Char
  appointment_datetime : PyDateTime
  duration_minutes : Nat
  status : List Char
deriving DecidableEq

/-- Outcome of _handle_booking_confirmation. -/
inductive ConfirmOutcome where
  | askDate
  | askTime
  | askFuture
  | clientMissing
  | storageError
  | created (ap : Appointment)
deriving DecidableEq

/-- Tail of _handle_booking_confirmation, after date and time have been
resolved: reject a non-future datetime, then create the appointment with
the hard-coded service and master, or report the try-block failures. -/
def finalizeConfirmation (now : PyNow) (clientFound dbOk : Bool)
    (adt : PyDateTime) : ConfirmOutcome :=
  if toSec adt ≤ toSec (nowDT now) then ConfirmOutcome.askFuture
  else if clientFound then
    if dbOk then
      ConfirmOutcome.created ⟨"Стрижка".toList, "Анна Петрова".toList, adt, 60,
        "scheduled".toList⟩
    else ConfirmOutcome.storageError
  else ConfirmOutcome.clientMissing

/-- _handle_booking_confirmation.  A literal date yields a datetime with
zero time-of-day fields; the weekday fallback keeps the seconds of now
(replace only resets hour and minute); the extracted time keeps the seconds
of now, which are then discarded by the final replace on the date value.
The try block around the database write is represented by the clientFound
and dbOk outcomes. -/
def handle_booking_confirmation (now : PyNow) (clientFound dbOk : Bool)
    (msg : List Char) : ConfirmOutcome :=
  let appDate : Option PyDateTime :=
    match extractDate now.year msg with
    | some (y, m, d) => some ⟨rataDie y m d, 0, 0, 0⟩
    | none =>
      match weekdayFromMsg msg with
      | some w => some ⟨now.jdn + daysAhead (now.jdn % 7) w, 0, 0, now.second⟩
      | none => none
  let appTime : Option (Nat × Nat) :=
    match extractTime msg with
    | some (h, mi) => some (h, mi)
    | none => partOfDayTime msg
  match appDate with
  | none => ConfirmOutcome.askDate
  | some ad =>
    match appTime with
    | none => ConfirmOutcome.askTime
    | some (h, mi) => finalizeConfirmation now clientFound dbOk ⟨ad.jdn, h, mi, ad.second⟩

theorem finalizeConfirmation_created (now : PyNow) (cf dbOk : Bool) (adt : PyDateTime)
    (ap : Appointment)
    (h : finalizeConfirmation now cf dbOk adt = ConfirmOutcome.created ap) :
    toSec (nowDT now) < toSec ap.appointment_datetime := by
  unfold finalizeConfirmation at h
  split at h
  · cases h
  · next hfut =>
    split at h
    · split at h
      · cases h
        simpa using Nat.lt_of_not_le hfut
      · cases h
    · cases h

/-! ## Classifier result and the immediate-creation booking path -/

/-- The structured verdict of the booking classifier. -/
structure BookingAnalysis where
  intent : List Char
  service : Option (List Char)
  master : Option (List Char)
  preferred_date : Option (List Char)
  preferred_time : Option (List Char)
  confidence : Rat
  needs_clarification : List (List Char)
  response : Option (List Char)
deriving DecidableEq

/-- The generic apology text returned on classifier failure. -/
def apologyResponse : List Char :=
  "Извините, произошла ошибка при обработке вашего запроса.".toList

/-- The degraded verdict of the except branch of process_booking_request. -/
def degradedVerdict : BookingAnalysis :=
  ⟨"other".toList, none, none, none, none, 0, [], some apologyResponse⟩

/-- process_booking_request: the result of the structured call when it
succeeds, the degraded verdict when the call or the JSON parse fails. -/
def process_booking_request (call : Except Unit BookingAnalysis) : BookingAnalysis :=
  match call with
  | Except.ok a => a
  | Except.error _ => degradedVerdict

/-- Python x or default on an optional string. -/
def orDefault (o : Option (List Char)) (d : List Char) : List Char :=
  match o with
  | some s => if s.isEmpty then d else s
  | none => d

/-- Outcome of _handle_booking_request. -/
inductive BookingOutcome where
  | createdNow (ap : Appointment)
  | clarification (topics : List (List Char))
  | noSlots
  | slotsOffered (slots : List BotSlot)
deriving DecidableEq

/-- _handle_booking_request: when nothing needs clarification and both a
preferred date and time are given, strptime them and persist an Appointment
immediately with no future check; any failure in that branch (parse error,
missing client, storage error) falls through to the clarification check and
then to slot generation. -/
def handle_booking_request (now : PyNow) (analysis : BookingAnalysis)
    (clientFound dbOk : Bool) : BookingOutcome :=
  let immediate : Option Appointment :=
    if analysis.needs_clarification.isEmpty && truthy analysis.preferred_date &&
        truthy analysis.preferred_time then
      match parse_strptime_ymd_hm ((analysis.preferred_date.getD []) ++
          ' ' :: (analysis.preferred_time.getD [])) with
      | some (y, m, d, h, mi) =>
        if clientFound && dbOk then
          some ⟨orDefault analysis.service ("Не указана".toList),
                orDefault analysis.master ("Наш мастер".toList),
                ⟨rataDie y m d, h, mi, 0⟩, 60, "scheduled".toList⟩
        else none
      | none => none
    else none
  match immediate with
  | some ap => BookingOutcome.createdNow ap
  | none =>
    if !analysis.needs_clarification.isEmpty then
      BookingOutcome.clarification analysis.needs_clarification
    else
      let slots := generate_available_slots now.jdn analysis.preferred_date
        analysis.preferred_time
      if slots.isEmpty then BookingOutcome.noSlots else BookingOutcome.slotsOffered slots

/-- A fixed current instant used by the concrete counterexamples. -/
def nowJul2025 : PyNow := ⟨2025, 7, 10, 12, 0, 0⟩

/-- Claim C1 (amended): every Appointment persisted by the fast-path
confirmation handler has a datetime strictly later than the current time. -/
theorem c1_confirmation_creates_only_future (now : PyNow) (cf dbOk : Bool)
    (msg : List Char) (ap : Appointment)
    (h : handle_booking_confirmation now cf dbOk msg = ConfirmOutcome.created ap) :
    toSec (nowDT now) < toSec ap.appointment_datetime := by
  unfold handle_booking_confirmation at h
  repeat'
    first
      | exact finalizeConfirmation_created _ _ _ _ _ h
      | cases h
      | split at h
      | dsimp only at h

/-- Concrete instance of the amended C1 theorem: a confirmed utterance far
in the future produces an appointment after now. -/
theorem c1_confirmation_creates_only_future_witness :
    toSec (nowDT nowJul2025) <
      toSec (⟨"Стрижка".toList, "Анна Петрова".toList, ⟨rataDie 2030 7 17, 14, 30, 0⟩, 60,
        "scheduled".toList⟩ : Appointment).appointment_datetime :=
  c1_confirmation_creates_only_future nowJul2025 true true ("17.07.2030 14:30".toList)
    ⟨"Стрижка".toList, "Анна Петрова".toList, ⟨rataDie 2030 7 17, 14, 30, 0⟩, 60,
      "scheduled".toList⟩ (by decide)

/-- Counterexample to claim C1 as stated: the classifier-driven immediate
creation path persists an Appointment dated 2020-01-01 10:00 although now
is 2025-07-10 12:00 - the appointment timestamp is before the current time,
so the invariant does not hold on every booking path. -/
theorem c1_immediate_path_counterexample :
    handle_booking_request nowJul2025
        ⟨"booking".toList, none, none, some ("2020-01-01".toList), some ("10:00".toList),
          1, [], none⟩ true true =
      BookingOutcome.createdNow ⟨"Не указана".toList, "Наш мастер".toList,
        ⟨rataDie 2020 1 1, 10, 0, 0⟩, 60, "scheduled".toList⟩ ∧
    toSec (⟨rataDie 2020 1 1, 10, 0, 0⟩ : PyDateTime) < toSec (nowDT nowJul2025) := by
  constructor
  · decide
  · decide

/-- Claim C9: whenever the structured classification call fails, the
classifier returns the degraded verdict - intent other, confidence zero,
the generic apology as response - and, being a total function, never
raises to the caller. -/
theorem c9_classifier_degrades_on_failure (call : Except Unit BookingAnalysis)
    (hfail : ∀ a, call ≠ Except.ok a) :
    process_booking_request call = degradedVerdict ∧
    (process_booking_request call).intent = "other".toList ∧
    (process_booking_request call).confidence = 0 ∧
    (process_booking_request call).response = some apologyResponse := by
  cases call with
  | ok a => exact absurd rfl (hfail a)
  | error e => exact ⟨rfl, rfl, rfl, rfl⟩

/-- Concrete instance of the C9 theorem. -/
theorem c9_classifier_degrades_on_failure_witness :
    process_booking_request (Except.error ()) = degradedVerdict :=
  (c9_classifier_degrades_on_failure (Except.error ())
    (fun _ h => Except.noConfusion h)).1

theorem weekdayFromMsg_lt (msg : List Char) (w : Nat)
    (hw : weekdayFromMsg msg = some w) : w < 7 := by
  unfold weekdayFromMsg at hw
  dsimp only at hw
  split_ifs at hw <;> simp_all <;> omega

/-- Claim C7: in the confirmation path a weekday name maps to the next
future occurrence of that weekday, between one and seven days ahead,
exactly seven when today already is that weekday, landing on the named
weekday; and with no literal time, a part-of-day keyword maps morning to
10:00, afternoon to 13:00 and evening to 18:00 (keywords probed in that
order). -/
theorem c7_weekday_and_part_of_day (msg : List Char) (today w : Nat)
    (hw : weekdayFromMsg msg = some w) :
    (1 ≤ daysAhead (today % 7) w ∧ daysAhead (today % 7) w ≤ 7 ∧
      (daysAhead (today % 7) w = 7 ↔ today % 7 = w) ∧
      (today + daysAhead (today % 7) w) % 7 = w) ∧
    (∀ m2, containsSub ("утр".toList) (lowerStr m2) = true →
        partOfDayTime m2 = some (10, 0)) ∧
    (∀ m2, containsAnyOf morningWords (lowerStr m2) = false →
        containsSub ("дн".toList) (lowerStr m2) = true →
        partOfDayTime m2 = some (13, 0)) ∧
    (∀ m2, containsAnyOf morningWords (lowerStr m2) = false →
        containsAnyOf afternoonWords (lowerStr m2) = false →
        containsSub ("веч".toList) (lowerStr m2) = true →
        partOfDayTime m2 = some (18, 0)) := by
  have hw7 : w < 7 := weekdayFromMsg_lt msg w hw
  have htw : today % 7 < 7 := Nat.mod_lt _ (by omega)
  refine ⟨?_, ?_, ?_, ?_⟩
  · unfold daysAhead
    dsimp only
    refine ⟨?_, ?_, ?_, ?_⟩
    · split_ifs <;> omega
    · split_ifs <;> omega
    · split_ifs with h0
      · constructor
        · intro _; omega
        · intro _; rfl
      · constructor
        · intro h7; omega
        · intro ht; omega
    · split_ifs with h0
      · omega
      · omega
  · intro m2 hm
    have hmor : containsAnyOf morningWords (lowerStr m2) = true := by
      unfold containsAnyOf
      rw [List.any_eq_true]
      exact ⟨"утр".toList, by decide, hm⟩
    unfold partOfDayTime
    rw [if_pos hmor]
  · intro m2 hmor hdn
    have hday : containsAnyOf afternoonWords (lowerStr m2) = true := by
      unfold containsAnyOf
      rw [List.any_eq_true]
      exact ⟨"дн".toList, by decide, hdn⟩
    unfold partOfDayTime
    rw [if_neg (by rw [hmor]; exact Bool.false_ne_true), if_pos hday]
  · intro m2 hmor hday hv
    have hev : containsAnyOf eveningWords (lowerStr m2) = true := by
      unfold containsAnyOf
      rw [List.any_eq_true]
      exact ⟨"веч".toList, by decide, hv⟩
    unfold partOfDayTime
    rw [if_neg (by rw [hmor]; exact Bool.false_ne_true),
      if_neg (by rw [hday]; exact Bool.false_ne_true), if_pos hev]

/-- Concrete instance of the C7 theorem: Friday evening, eleven days of
year 2023 into an era counted in days. -/
theorem c7_weekday_and_part_of_day_witness :
    (738500 + daysAhead (738500 % 7) 4) % 7 = 4 ∧
    partOfDayTime ("вечером".toList) = some (18, 0) := by
  have h := c7_weekday_and_part_of_day ("пятница вечером".toList) 738500 4 (by decide)
  exact ⟨h.1.2.2.2, h.2.2.2 ("вечером".toList) (by decide) (by decide) (by decide)⟩

/-! ## The message-processing pipeline (process_message)

External effects - record-store operations, the services call, the
classifier call, the knowledge-base answer, the chat call and the fact
extraction - are supplied as results of the one call the pipeline makes to
each.  An Except.error models a raised exception; the pipeline definition
mirrors where the source catches and where it does not.  Reply texts of
the branch handlers are rendered to their leading fixed text; the claims
only depend on a string being produced. -/

/-- Results of the external calls one process_message invocation makes. -/
structure ExternalWorld where
  clientCall : Except Unit Nat
  sessionCall : Except Unit Nat
  saveUserCall : Except Unit Unit
  saveBotCall : Except Unit Unit
  classifierCall : Except Unit BookingAnalysis
  historyCall : Except Unit (List (List Char))
  chatCall : Except Unit (List Char)
  kbAnswer : List Char
  factsCall : Except Unit Unit
  confirmClientFound : Bool
  confirmDbOk : Bool
  bookingClientFound : Bool
  bookingDbOk : Bool

/-- Reply text of the confirmation handler (formatting elided). -/
def renderConfirmation : ConfirmOutcome → List Char
  | ConfirmOutcome.askDate =>
    "Пожалуйста, укажите точную дату (например, 20.07.2025) или день недели.".toList
  | ConfirmOutcome.askTime =>
    "Пожалуйста, уточните время (например, 14:30, утро, день, вечер).".toList
  | ConfirmOutcome.askFuture => "Пожалуйста, выберите время в будущем.".toList
  | ConfirmOutcome.clientMissing => "Ошибка: клиент не найден в базе данных.".toList
  | ConfirmOutcome.storageError =>
    "Ошибка при создании записи. Пожалуйста, попробуйте позже.".toList
  | ConfirmOutcome.created _ => "Запись успешно создана!".toList

/-- Reply text of the booking-request handler (formatting elided). -/
def renderBooking : BookingOutcome → List Char
  | BookingOutcome.createdNow _ => "Запись создана!".toList
  | BookingOutcome.clarification _ => "Для записи мне нужно уточнить:".toList
  | BookingOutcome.noSlots =>
    "К сожалению, нет свободных слотов на указанное время.".toList
  | BookingOutcome.slotsOffered _ => "Нашел свободные слоты для записи.".toList

/-- _handle_message_type.  The confirmation branch and the booking branch
contain their own try blocks and always return a string; the services call
is caught (an empty catalog on failure, which only affects the prompt);
the classifier call degrades inside process_booking_request; the
knowledge-base path catches search and chat failures internally; the
general-chat path fetches history with no try block, so a store failure
there escapes, and only there. -/
def handle_message_type (now : PyNow) (w : ExternalWorld) (msg : List Char) :
    Except Unit (List Char) :=
  if is_booking_confirmation msg then
    Except.ok (renderConfirmation
      (handle_booking_confirmation now w.confirmClientFound w.confirmDbOk msg))
  else
    let analysis := process_booking_request w.classifierCall
    if analysis.intent = "booking".toList then
      Except.ok (renderBooking
        (handle_booking_request now analysis w.bookingClientFound w.bookingDbOk))
    else if analysis.intent = "question".toList then
      Except.ok w.kbAnswer
    else
      match w.historyCall with
      | Except.error e => Except.error e
      | Except.ok _ =>
        Except.ok (match w.chatCall with
          | Except.ok r => r
          | Except.error _ => apologyResponse)

/-- process_message: client lookup-or-create, session lookup-or-create and
the user-message save run with no surrounding try and propagate store
errors; then the branch handler; then the bot-message save, also
unguarded; the closing fact extraction is inside a try-except and its
failure is swallowed. -/
def process_message (now : PyNow) (w : ExternalWorld) (msg : List Char) :
    Except Unit (List Char) :=
  match w.clientCall with
  | Except.error e => Except.error e
  | Except.ok _ =>
    match w.sessionCall with
    | Except.error e => Except.error e
    | Except.ok _ =>
      match w.saveUserCall with
      | Except.error e => Except.error e
      | Except.ok _ =>
        match handle_message_type now w msg with
        | Except.error e => Except.error e
        | Except.ok resp =>
          match w.saveBotCall with
          | Except.error e => Except.error e
          | Except.ok _ => Except.ok resp

/-- A world in which every external call succeeds trivially. -/
def allOkWorld : ExternalWorld :=
  ⟨Except.ok 1, Except.ok 1, Except.ok (), Except.ok (), Except.ok degradedVerdict,
    Except.ok [], Except.ok [], [], Except.ok (), true, true, true, true⟩

/-- Counterexample to claim C2 as stated: a store failure in
get_or_create_client escapes process_message as an exception instead of a
string reply. -/
theorem c2_storage_failure_escapes_counterexample :
    process_message nowJul2025 { allOkWorld with clientCall := Except.error () }
      ("привет".toList) = Except.error () := rfl

/-- Claim C2 (amended): whenever the record-store operations of the
pipeline succeed - client lookup-or-create, session lookup-or-create, the
two message saves and the history fetch - process_message returns a string
reply, for every outcome of the classifier call, the chat call and the
fact extraction, including failures. -/
theorem c2_reply_when_storage_ok (now : PyNow) (w : ExternalWorld) (msg : List Char)
    (hc : w.clientCall.isOk = true) (hs : w.sessionCall.isOk = true)
    (hu : w.saveUserCall.isOk = true) (hb : w.saveBotCall.isOk = true)
    (hh : w.historyCall.isOk = true) :
    ∃ r, process_message now w msg = Except.ok r := by
  unfold process_message
  cases hcc : w.clientCall with
  | error e => rw [hcc] at hc; cases hc
  | ok c =>
    cases hsc : w.sessionCall with
    | error e => rw [hsc] at hs; cases hs
    | ok s =>
      cases huc : w.saveUserCall with
      | error e => rw [huc] at hu; cases hu
      | ok u =>
        have hmt : ∃ r, handle_message_type now w msg = Except.ok r := by
          unfold handle_message_type
          by_cases hconf : is_booking_confirmation msg = true
          · rw [if_pos hconf]
            exact ⟨_, rfl⟩
          · rw [if_neg hconf]
            dsimp only
            by_cases hint : (process_booking_request w.classifierCall).intent = "booking".toList
            · rw [if_pos hint]
              exact ⟨_, rfl⟩
            · rw [if_neg hint]
              by_cases hq : (process_booking_request w.classifierCall).intent = "question".toList
              · rw [if_pos hq]
                exact ⟨_, rfl⟩
              · rw [if_neg hq]
                cases hhc : w.historyCall with
                | error e => rw [hhc] at hh; cases hh
                | ok hist => exact ⟨_, rfl⟩
        obtain ⟨r, hr⟩ := hmt
        rw [hr]
        cases hbc : w.saveBotCall with
        | error e => rw [hbc] at hb; cases hb
        | ok b => exact ⟨r, rfl⟩

/-- Concrete instance of the amended C2 theorem: with the store healthy but
the classifier, the chat call and the fact extraction all failing, a string
reply is still produced. -/
theorem c2_reply_when_storage_ok_witness :
    ∃ r, process_message nowJul2025
      { allOkWorld with
        classifierCall := Except.error ()
        chatCall := Except.error ()
        factsCall := Except.error () } ("привет".toList) = Except.ok r :=
  c2_reply_when_storage_ok nowJul2025
    { allOkWorld with
      classifierCall := Except.error ()
      chatCall := Except.error ()
      factsCall := Except.error () } ("привет".toList) (by decide) (by decide) (by decide)
    (by decide) (by decide)

/-! ## Claim C10: a bare dotted date doubles as a time

The same digits D.MM match both the date pattern and the H.MM time pattern,
so an utterance whose only numeric content is a dotted date fires the
detector and the handler reads the day as the hour and the month as the
minute. -/

/-- Value of a one-or-two-digit group. -/
def digitsVal (l : List Char) : Nat := l.foldl (fun acc c => 10 * acc + dv c) 0

theorem matchHM_nondigit (sep c : Char) (t : List Char) (h : c.isDigit = false) :
    matchHM sep (c :: t) = none := by
  rcases t with _ | ⟨b, _ | ⟨d, _ | ⟨e, _ | ⟨f, r⟩⟩⟩⟩ <;> simp [matchHM, h]

theorem numSepAt_nondigit (sep c : Char) (t : List Char) (h : c.isDigit = false) :
    numSepAt sep (c :: t) = none := by
  rcases t with _ | ⟨b, _ | ⟨d, r⟩⟩ <;> simp [numSepAt, h]

theorem matchDM_nondigit (sep c : Char) (t : List Char) (h : c.isDigit = false) :
    matchDM sep (c :: t) = none := by
  rw [matchDM, numSepAt_nondigit sep c t h]

theorem matchDMY_nondigit (sep c : Char) (t : List Char) (h : c.isDigit = false) :
    matchDMY sep (c :: t) = none := by
  rw [matchDMY, numSepAt_nondigit sep c t h]

theorem firstTail_skip {α : Type} (f : List Char → Option α)
    (hf : ∀ c t, c.isDigit = false → f (c :: t) = none)
    (pre rest : List Char) (hpre : pre.all (fun c => !c.isDigit) = true) :
    firstTail f (pre ++ rest) = firstTail f rest := by
  induction pre with
  | nil => rfl
  | cons c p ih =>
    rw [List.all_cons, Bool.and_eq_true] at hpre
    have hc : c.isDigit = false := by simpa using hpre.1
    calc firstTail f ((c :: p) ++ rest)
        = firstTail f (p ++ rest) := by
          show (f (c :: (p ++ rest))).orElse (fun _ => firstTail f (p ++ rest)) =
            firstTail f (p ++ rest)
          rw [hf c _ hc]
          rfl
      _ = firstTail f rest := ih hpre.2

theorem firstTail_head {α : Type} (f : List Char → Option α) (s : List Char) (v : α)
    (h : f s = some v) : firstTail f s = some v := by
  cases s with
  | nil => exact h
  | cons c t =>
    show (f (c :: t)).orElse (fun _ => firstTail f t) = some v
    rw [h]
    rfl

theorem dotChar_not_digit : ('.' : Char).isDigit = false := by decide

theorem matchHM_core1 (a m1 m2 : Char) (post : List Char)
    (ha : a.isDigit = true) (h1 : m1.isDigit = true) (h2 : m2.isDigit = true) :
    matchHM '.' (a :: '.' :: m1 :: m2 :: post) = some (dv a, 10 * dv m1 + dv m2) := by
  cases post with
  | nil => simp [matchHM, ha, h1, h2, dotChar_not_digit]
  | cons x xs => simp [matchHM, ha, h1, h2, dotChar_not_digit]

theorem matchHM_core2 (a b m1 m2 : Char) (post : List Char)
    (ha : a.isDigit = true) (hb : b.isDigit = true)
    (h1 : m1.isDigit = true) (h2 : m2.isDigit = true) :
    matchHM '.' (a :: b :: '.' :: m1 :: m2 :: post) =
      some (10 * dv a + dv b, 10 * dv m1 + dv m2) := by
  simp [matchHM, ha, hb, h1, h2]

theorem numSepAt_core1 (a c : Char) (rest : List Char) (ha : a.isDigit = true) :
    numSepAt '.' (a :: '.' :: c :: rest) = some (dv a, c :: rest) := by
  simp [numSepAt, ha, dotChar_not_digit]

theorem numSepAt_core2 (a b : Char) (rest : List Char)
    (ha : a.isDigit = true) (hb : b.isDigit = true) :
    numSepAt '.' (a :: b :: '.' :: rest) = some (10 * dv a + dv b, rest) := by
  simp [numSepAt, ha, hb]

theorem d2or1at_two (a b : Char) (rest : List Char)
    (ha : a.isDigit = true) (hb : b.isDigit = true) :
    d2or1at (a :: b :: rest) = some (10 * dv a + dv b) := by
  simp [d2or1at, ha, hb]

theorem d4at_four (a b c d : Char) (rest : List Char)
    (ha : a.isDigit = true) (hb : b.isDigit = true)
    (hc : c.isDigit = true) (hd : d.isDigit = true) :
    d4at (a :: b :: c :: d :: rest) =
      some (dv a * 1000 + dv b * 100 + dv c * 10 + dv d) := by
  simp [d4at, ha, hb, hc, hd]

theorem pyValidDate_bounds (y m d : Nat) (h : pyValidDate y m d = true) :
    1 ≤ y ∧ 1 ≤ m ∧ m ≤ 12 ∧ 1 ≤ d := by
  unfold pyValidDate at h
  simp only [Bool.and_eq_true, decide_eq_true_eq] at h
  exact ⟨h.1.1.1.1.1, h.1.1.1.2, h.1.1.2, h.1.2⟩

theorem digitsVal_one (a : Char) : digitsVal [a] = dv a := by
  show 10 * 0 + dv a = dv a
  omega

theorem digitsVal_two (a b : Char) : digitsVal [a, b] = 10 * dv a + dv b := by
  show 10 * (10 * 0 + dv a) + dv b = 10 * dv a + dv b
  omega

theorem firstTail_matchDM_dotted (pre dayStr tail : List Char) (m1 m2 : Char)
    (hday : Digits1or2 dayStr) (hpre : pre.all (fun c => !c.isDigit) = true)
    (h1 : m1.isDigit = true) (h2 : m2.isDigit = true) :
    firstTail (matchDM '.') (pre ++ dayStr ++ '.' :: m1 :: m2 :: tail) =
      some (digitsVal dayStr, 10 * dv m1 + dv m2) := by
  rw [List.append_assoc,
    firstTail_skip (matchDM '.') (matchDM_nondigit '.') pre _ hpre]
  rcases hday with ⟨a, rfl, ha⟩ | ⟨a, b, rfl, ha, hb⟩
  · rw [digitsVal_one]
    apply firstTail_head
    rw [List.cons_append, List.nil_append, matchDM, numSepAt_core1 a m1 _ ha]
    dsimp only
    rw [d2or1at_two m1 m2 _ h1 h2]
  · rw [digitsVal_two]
    apply firstTail_head
    show matchDM '.' (a :: b :: '.' :: m1 :: m2 :: tail) = _
    rw [matchDM, numSepAt_core2 a b _ ha hb]
    dsimp only
    rw [d2or1at_two m1 m2 _ h1 h2]

theorem firstTail_matchHM_dotted (pre dayStr tail : List Char) (m1 m2 : Char)
    (hday : Digits1or2 dayStr) (hpre : pre.all (fun c => !c.isDigit) = true)
    (h1 : m1.isDigit = true) (h2 : m2.isDigit = true) :
    firstTail (matchHM '.') (pre ++ dayStr ++ '.' :: m1 :: m2 :: tail) =
      some (digitsVal dayStr, 10 * dv m1 + dv m2) := by
  rw [List.append_assoc,
    firstTail_skip (matchHM '.') (matchHM_nondigit '.') pre _ hpre]
  rcases hday with ⟨a, rfl, ha⟩ | ⟨a, b, rfl, ha, hb⟩
  · rw [digitsVal_one]
    apply firstTail_head
    show matchHM '.' (a :: '.' :: m1 :: m2 :: tail) = _
    rw [matchHM_core1 a m1 m2 _ ha h1 h2]
  · rw [digitsVal_two]
    apply firstTail_head
    show matchHM '.' (a :: b :: '.' :: m1 :: m2 :: tail) = _
    rw [matchHM_core2 a b m1 m2 _ ha hb h1 h2]

theorem firstTail_matchDMY_dotted (pre dayStr post : List Char) (m1 m2 y1 y2 y3 y4 : Char)
    (hday : Digits1or2 dayStr) (hpre : pre.all (fun c => !c.isDigit) = true)
    (h1 : m1.isDigit = true) (h2 : m2.isDigit = true)
    (hy1 : y1.isDigit = true) (hy2 : y2.isDigit = true)
    (hy3 : y3.isDigit = true) (hy4 : y4.isDigit = true) :
    firstTail (matchDMY '.')
        (pre ++ dayStr ++ '.' :: m1 :: m2 :: '.' :: y1 :: y2 :: y3 :: y4 :: post) =
      some (digitsVal dayStr, 10 * dv m1 + dv m2,
        dv y1 * 1000 + dv y2 * 100 + dv y3 * 10 + dv y4) := by
  rw [List.append_assoc,
    firstTail_skip (matchDMY '.') (matchDMY_nondigit '.') pre _ hpre]
  rcases hday with ⟨a, rfl, ha⟩ | ⟨a, b, rfl, ha, hb⟩
  · rw [digitsVal_one]
    apply firstTail_head
    show matchDMY '.' (a :: '.' :: m1 :: m2 :: '.' :: y1 :: y2 :: y3 :: y4 :: post) = _
    rw [matchDMY, numSepAt_core1 a m1 _ ha]
    dsimp only
    rw [numSepAt_core2 m1 m2 _ h1 h2]
    dsimp only
    rw [d4at_four y1 y2 y3 y4 _ hy1 hy2 hy3 hy4]
  · rw [digitsVal_two]
    apply firstTail_head
    show matchDMY '.' (a :: b :: '.' :: m1 :: m2 :: '.' :: y1 :: y2 :: y3 :: y4 :: post) = _
    rw [matchDMY, numSepAt_core2 a b _ ha hb]
    dsimp only
    rw [numSepAt_core2 m1 m2 _ h1 h2]
    dsimp only
    rw [d4at_four y1 y2 y3 y4 _ hy1 hy2 hy3 hy4]

theorem extractTime_dotted (pre dayStr tail : List Char) (m1 m2 : Char)
    (hday : Digits1or2 dayStr) (hpre : pre.all (fun c => !c.isDigit) = true)
    (h1 : m1.isDigit = true) (h2 : m2.isDigit = true)
    (hnoColon : firstTail (matchHM ':') (pre ++ dayStr ++ '.' :: m1 :: m2 :: tail) = none)
    (h23 : digitsVal dayStr ≤ 23) (h59 : 10 * dv m1 + dv m2 ≤ 59) :
    extractTime (pre ++ dayStr ++ '.' :: m1 :: m2 :: tail) =
      some (digitsVal dayStr, 10 * dv m1 + dv m2) := by
  unfold extractTime
  dsimp only
  rw [hnoColon, firstTail_matchHM_dotted pre dayStr tail m1 m2 hday hpre h1 h2]
  dsimp only
  rw [if_pos (by simp [h23, h59])]

theorem extractDate_dotted_dm (ny : Nat) (pre dayStr post : List Char) (m1 m2 : Char)
    (hday : Digits1or2 dayStr) (hpre : pre.all (fun c => !c.isDigit) = true)
    (h1 : m1.isDigit = true) (h2 : m2.isDigit = true)
    (hnoDMY : firstTail (matchDMY '.') (pre ++ dayStr ++ '.' :: m1 :: m2 :: post) = none)
    (hvalid : pyValidDate ny (10 * dv m1 + dv m2) (digitsVal dayStr) = true) :
    extractDate ny (pre ++ dayStr ++ '.' :: m1 :: m2 :: post) =
      some (ny, 10 * dv m1 + dv m2, digitsVal dayStr) := by
  unfold extractDate
  dsimp only
  rw [hnoDMY, firstTail_matchDM_dotted pre dayStr post m1 m2 hday hpre h1 h2]
  dsimp only
  rw [if_pos hvalid]

theorem extractDate_dotted_dmy (ny : Nat) (pre dayStr post : List Char)
    (m1 m2 y1 y2 y3 y4 : Char)
    (hday : Digits1or2 dayStr) (hpre : pre.all (fun c => !c.isDigit) = true)
    (h1 : m1.isDigit = true) (h2 : m2.isDigit = true)
    (hy1 : y1.isDigit = true) (hy2 : y2.isDigit = true)
    (hy3 : y3.isDigit = true) (hy4 : y4.isDigit = true)
    (hvalid : pyValidDate (dv y1 * 1000 + dv y2 * 100 + dv y3 * 10 + dv y4)
      (10 * dv m1 + dv m2) (digitsVal dayStr) = true) :
    extractDate ny
        (pre ++ dayStr ++ '.' :: m1 :: m2 :: '.' :: y1 :: y2 :: y3 :: y4 :: post) =
      some (dv y1 * 1000 + dv y2 * 100 + dv y3 * 10 + dv y4,
        10 * dv m1 + dv m2, digitsVal dayStr) := by
  unfold extractDate
  dsimp only
  rw [firstTail_matchDMY_dotted pre dayStr post m1 m2 y1 y2 y3 y4 hday hpre h1 h2
    hy1 hy2 hy3 hy4]
  dsimp only
  rw [if_pos hvalid]

/-- Claim C10: an utterance whose only numeric content is a dotted date,
with a two-digit month field and a day of at most twenty-three, fires the
fast-path detector (the date digits also match the dotted time pattern),
and the confirmation handler reads the day as the hour and the month as
the minute of the appointment, creating it when that instant is in the
future instead of asking for the missing time.  The absence of other
numeric content is expressed by a digit-free prefix, the absence of a full
dotted day-month-year match elsewhere, and the absence of any colon time
match. -/
theorem c10_dotted_date_read_as_time :
    (∀ (pre post : List Char) (a m1 m2 : Char), a.isDigit = true →
        m1.isDigit = true → m2.isDigit = true →
        is_booking_confirmation (pre ++ a :: '.' :: m1 :: m2 :: post) = true) ∧
    (∀ (now : PyNow) (pre dayStr post : List Char) (m1 m2 : Char),
        Digits1or2 dayStr → pre.all (fun c => !c.isDigit) = true →
        m1.isDigit = true → m2.isDigit = true →
        firstTail (matchDMY '.') (pre ++ dayStr ++ '.' :: m1 :: m2 :: post) = none →
        firstTail (matchHM ':') (pre ++ dayStr ++ '.' :: m1 :: m2 :: post) = none →
        pyValidDate now.year (10 * dv m1 + dv m2) (digitsVal dayStr) = true →
        digitsVal dayStr ≤ 23 →
        toSec (nowDT now) < toSec ⟨rataDie now.year (10 * dv m1 + dv m2)
          (digitsVal dayStr), digitsVal dayStr, 10 * dv m1 + dv m2, 0⟩ →
        handle_booking_confirmation now true true
            (pre ++ dayStr ++ '.' :: m1 :: m2 :: post) =
          ConfirmOutcome.created ⟨"Стрижка".toList, "Анна Петрова".toList,
            ⟨rataDie now.year (10 * dv m1 + dv m2) (digitsVal dayStr),
              digitsVal dayStr, 10 * dv m1 + dv m2, 0⟩, 60, "scheduled".toList⟩) ∧
    (∀ (now : PyNow) (pre dayStr post : List Char) (m1 m2 y1 y2 y3 y4 : Char),
        Digits1or2 dayStr → pre.all (fun c => !c.isDigit) = true →
        m1.isDigit = true → m2.isDigit = true →
        y1.isDigit = true → y2.isDigit = true → y3.isDigit = true → y4.isDigit = true →
        firstTail (matchHM ':')
          (pre ++ dayStr ++ '.' :: m1 :: m2 :: '.' :: y1 :: y2 :: y3 :: y4 :: post) = none →
        pyValidDate (dv y1 * 1000 + dv y2 * 100 + dv y3 * 10 + dv y4)
          (10 * dv m1 + dv m2) (digitsVal dayStr) = true →
        digitsVal dayStr ≤ 23 →
        toSec (nowDT now) < toSec ⟨rataDie (dv y1 * 1000 + dv y2 * 100 + dv y3 * 10 + dv y4)
          (10 * dv m1 + dv m2) (digitsVal dayStr), digitsVal dayStr, 10 * dv m1 + dv m2, 0⟩ →
        handle_booking_confirmation now true true
            (pre ++ dayStr ++ '.' :: m1 :: m2 :: '.' :: y1 :: y2 :: y3 :: y4 :: post) =
          ConfirmOutcome.created ⟨"Стрижка".toList, "Анна Петрова".toList,
            ⟨rataDie (dv y1 * 1000 + dv y2 * 100 + dv y3 * 10 + dv y4)
              (10 * dv m1 + dv m2) (digitsVal dayStr), digitsVal dayStr,
              10 * dv m1 + dv m2, 0⟩, 60, "scheduled".toList⟩) := by
  refine ⟨?_, ?_, ?_⟩
  · intro pre post a m1 m2 ha h1 h2
    unfold is_booking_confirmation
    rw [Bool.or_eq_true, Bool.and_eq_true]
    left
    constructor
    · exact anyTail_append_right _ pre _
        (by simp [anyTail, dateDetectAt, dmLongAt, dmShortAt, dateSep, ha, h1])
    · exact anyTail_append_right _ pre _
        (by simp [anyTail, timeDetectAt, tmLongAt, tmShortAt, timeSep, ha, h1, h2])
  · intro now pre dayStr post m1 m2 hday hpre h1 h2 hnoDMY hnoColon hvalid h23 hfut
    have hb := pyValidDate_bounds _ _ _ hvalid
    have hED := extractDate_dotted_dm now.year pre dayStr post m1 m2 hday hpre h1 h2
      hnoDMY hvalid
    have hET := extractTime_dotted pre dayStr post m1 m2 hday hpre h1 h2 hnoColon h23
      (by omega)
    unfold handle_booking_confirmation
    rw [hED, hET]
    dsimp only
    unfold finalizeConfirmation
    rw [if_neg (by omega), if_pos rfl, if_pos rfl]
  · intro now pre dayStr post m1 m2 y1 y2 y3 y4 hday hpre h1 h2 hy1 hy2 hy3 hy4
      hnoColon hvalid h23 hfut
    have hb := pyValidDate_bounds _ _ _ hvalid
    have hED := extractDate_dotted_dmy now.year pre dayStr post m1 m2 y1 y2 y3 y4 hday
      hpre h1 h2 hy1 hy2 hy3 hy4 hvalid
    have hET := extractTime_dotted pre dayStr ('.' :: y1 :: y2 :: y3 :: y4 :: post) m1 m2
      hday hpre h1 h2 hnoColon h23 (by omega)
    unfold handle_booking_confirmation
    rw [hED, hET]
    dsimp only
    unfold finalizeConfirmation
    rw [if_neg (by omega), if_pos rfl, if_pos rfl]

/-- Concrete instance of the C10 theorem: the utterance 17.09 with no other
digits creates an appointment on September 17 at 17:09. -/
theorem c10_dotted_date_read_as_time_witness :
    handle_booking_confirmation nowJul2025 true true
        (("хочу ".toList) ++ ['1', '7'] ++ '.' :: '0' :: '9' :: ([] : List Char)) =
      ConfirmOutcome.created ⟨"Стрижка".toList, "Анна Петрова".toList,
        ⟨rataDie 2025 9 17, 17, 9, 0⟩, 60, "scheduled".toList⟩ :=
  c10_dotted_date_read_as_time.2.1 nowJul2025 ("хочу ".toList) ['1', '7'] [] '0' '9'
    (Or.inr ⟨'1', '7', rfl, by decide, by decide⟩) (by decide) (by decide) (by decide)
    (by decide) (by decide) (by decide) (by decide) (by decide)
